import Mathlib

/-!
Verification of the open-context acquisition/caching/retrieval engine.

Go strings are modelled as `List Char` (`GoStr`); Go byte-level string
operations (`strings.Contains`, `strings.SplitN`, `strings.TrimSpace`,
`strings.ReplaceAll`, ...) are translated to explicit recursive functions on
char lists.  File systems are modelled as association lists from paths to
(content, modification time); clocks and TTLs are natural numbers (Go
`time.Duration` / `time.Time` in some fixed unit).  Network calls are
modelled as injected oracles (`String -> Option result`), `none` standing for
any error (network failure, non-200 status, parse failure).
-/

/-- Go string, modelled as a list of characters. -/
abbrev GoStr := List Char

/-- Conversion from a Lean string literal to a `GoStr`. -/
def gs (s : String) : GoStr := s.data

/-- Whitespace test used to model `strings.TrimSpace` / blank-line skipping
(ASCII subset of `unicode.IsSpace`). -/
def isSpaceChar (c : Char) : Bool :=
  c == ' ' || c == '\t' || c == '\n' || c == '\r' ||
  c == Char.ofNat 11 || c == Char.ofNat 12

/-- `strings.TrimSpace`. -/
def trimSpace (s : GoStr) : GoStr :=
  ((s.dropWhile isSpaceChar).reverse.dropWhile isSpaceChar).reverse

/-- `strings.Contains s pat` (substring test). -/
def strContains : GoStr → GoStr → Bool
  | s, pat =>
    if pat.isPrefixOf s then true
    else match s with
      | [] => false
      | _ :: rest => strContains rest pat

/-- `strings.ToLower` (ASCII subset of the Unicode mapping). -/
def strToLower (s : GoStr) : GoStr := s.map Char.toLower

/-- `strings.ReplaceAll s "/" "_"` (single-character pattern and
replacement, hence a per-character map). -/
def replaceSlashUnderscore (s : GoStr) : GoStr :=
  s.map (fun c => if c = '/' then '_' else c)

/-- Split a string at the first occurrence of a single-character
separator (`strings.SplitN s sep 2` for a one-character `sep`,
and the work-horse for line splitting). -/
def splitOnceChar (sep : Char) : GoStr → Option (GoStr × GoStr)
  | [] => none
  | c :: rest =>
    if c = sep then some ([], rest)
    else match splitOnceChar sep rest with
      | some (a, b) => some (c :: a, b)
      | none => none

theorem splitOnceChar_length {sep : Char} :
    ∀ {s a b : GoStr}, splitOnceChar sep s = some (a, b) → b.length < s.length := by
  intro s
  induction s with
  | nil => intro a b h; simp [splitOnceChar] at h
  | cons c rest ih =>
    intro a b h
    simp only [splitOnceChar] at h
    split at h
    · cases h; simp
    · cases hrec : splitOnceChar sep rest with
      | none => rw [hrec] at h; cases h
      | some p =>
        rw [hrec] at h
        cases p with
        | mk a' b' =>
          simp only at h
          cases h
          have := ih hrec
          simp
          omega

/-- Split a string into lines at `'\n'` (as the YAML scanner does on the
frontmatter block). -/
def splitLines : GoStr → List GoStr
  | [] => [[]]
  | c :: rest =>
    if c = '\n' then [] :: splitLines rest
    else match splitLines rest with
      | l :: ls => (c :: l) :: ls
      | [] => [[c]]

deriving instance DecidableEq for Except

/-! ## The `---` delimiter scanner

`loadLibraryInfoFromMarkdown` splits the file content with
`strings.SplitN(content, "---", 3)`.  The delimiter is the literal
three-character sequence `---`, so the splitter is specialised to it. -/

/-- Does the string start with the literal `---`? -/
def startsTriple : GoStr → Bool
  | c1 :: c2 :: c3 :: _ => c1 == '-' && c2 == '-' && c3 == '-'
  | _ => false

/-- Does the string contain `---` anywhere? -/
def hasTripleDash : GoStr → Bool
  | [] => false
  | c :: rest => startsTriple (c :: rest) || hasTripleDash rest

/-- Split at the first occurrence of `---`: returns the part before and the
part after the delimiter, or `none` when the delimiter does not occur. -/
def splitDash : GoStr → Option (GoStr × GoStr)
  | [] => none
  | c :: rest =>
    if startsTriple (c :: rest) then some ([], rest.drop 2)
    else match splitDash rest with
      | some (a, b) => some (c :: a, b)
      | none => none

/-- `strings.SplitN content "---" 3`. -/
def splitN3 (s : GoStr) : List GoStr :=
  match splitDash s with
  | none => [s]
  | some (a, rest) =>
    match splitDash rest with
    | none => [a, rest]
    | some (b, rest2) => [a, b, rest2]

/-! ## Content codec (`go_fetcher.go`: `saveLibraryInfoAsMarkdown` /
`loadLibraryInfoFromMarkdown`) -/

/-- `fetcher.LibraryInfo`. -/
structure LibraryInfo where
  importPath  : GoStr
  version     : GoStr
  synopsis    : GoStr
  description : GoStr
  repository  : GoStr
  license     : GoStr
deriving Repr, DecidableEq

/-- `strings.ReplaceAll(s, "\"", "\\\"")` — the quote escaping applied to
the synopsis field before writing it as a YAML double-quoted scalar. -/
def escapeQuotes : GoStr → GoStr
  | [] => []
  | c :: rest =>
    if c = '"' then '\\' :: '"' :: escapeQuotes rest else c :: escapeQuotes rest

/-- The file content written by `saveLibraryInfoAsMarkdown` (the `os.WriteFile`
side is modelled at the file-system level by the fetch orchestrator). -/
def saveLibraryInfoAsMarkdown (info : LibraryInfo) : GoStr :=
  gs "---\n"
  ++ (gs "importPath: \"" ++ info.importPath ++ gs "\"\n")
  ++ (if info.version = [] then [] else gs "version: \"" ++ info.version ++ gs "\"\n")
  ++ (if info.synopsis = [] then [] else
        gs "synopsis: \"" ++ escapeQuotes info.synopsis ++ gs "\"\n")
  ++ (if info.repository = [] then [] else gs "repository: \"" ++ info.repository ++ gs "\"\n")
  ++ (if info.license = [] then [] else gs "license: \"" ++ info.license ++ gs "\"\n")
  ++ gs "---\n\n"
  ++ info.description

/-- One escape sequence of a YAML double-quoted scalar
(`gopkg.in/yaml.v3` behaviour on the escapes relevant here). -/
def unescapeChar (c : Char) : Option Char :=
  if c = '"' then some '"'
  else if c = '\\' then some '\\'
  else if c = 'n' then some '\n'
  else if c = 't' then some '\t'
  else if c = 'r' then some '\r'
  else none

/-- Scan the body of a YAML double-quoted scalar (after the opening quote):
returns the decoded value and the remainder after the closing quote, `none`
on an unterminated scalar or invalid escape. -/
def unquoteBody : GoStr → Option (GoStr × GoStr)
  | [] => none
  | c :: rest =>
    if c = '\\' then
      match rest with
      | [] => none
      | e :: rest2 =>
        match unescapeChar e, unquoteBody rest2 with
        | some d, some (v, rem) => some (d :: v, rem)
        | _, _ => none
    else if c = '"' then some ([], rest)
    else
      match unquoteBody rest with
      | some (v, rem) => some (c :: v, rem)
      | none => none

/-- Parse one frontmatter line.  Model of `gopkg.in/yaml.v3` (an external
library) restricted to the flat `key: value` mappings this codec emits:
`none` = parse error, `some none` = blank line (skipped),
`some (some (k, v))` = one key/value pair. -/
def parseYamlLine (line : GoStr) : Option (Option (GoStr × GoStr)) :=
  if line.all isSpaceChar then some none
  else match splitOnceChar ':' line with
    | none => none
    | some (k, rest) =>
      let v := rest.dropWhile (fun c => c == ' ')
      match v with
      | c :: body =>
        if c = '"' then
          match unquoteBody body with
          | some (val, rem) => if rem.all isSpaceChar then some (some (k, val)) else none
          | none => none
        else some (some (k, ((c :: body).reverse.dropWhile isSpaceChar).reverse))
      | [] => some (some (k, []))

/-- Parse all frontmatter lines into key/value pairs (`none` on any bad line). -/
def collectPairs : List GoStr → Option (List (GoStr × GoStr))
  | [] => some []
  | l :: ls =>
    match parseYamlLine l, collectPairs ls with
    | some none, some ps => some ps
    | some (some kv), some ps => some (kv :: ps)
    | _, _ => none

/-- Field lookup in the parsed mapping; an absent key yields the empty
string (Go struct zero value, matching `yaml.Unmarshal` into a struct). -/
def lookupStr (k : GoStr) : List (GoStr × GoStr) → GoStr
  | [] => []
  | (k2, v) :: rest => if k2 = k then v else lookupStr k rest

/-- The metadata struct `loadLibraryInfoFromMarkdown` unmarshals into. -/
structure LibMeta where
  importPath : GoStr
  version    : GoStr
  synopsis   : GoStr
  repository : GoStr
  license    : GoStr
deriving Repr, DecidableEq

/-- `yaml.Unmarshal([]byte(parts[1]), &meta)` on the frontmatter block. -/
def parseLibMeta (s : GoStr) : Option LibMeta :=
  match collectPairs (splitLines s) with
  | none => none
  | some ps =>
    some ⟨lookupStr (gs "importPath") ps, lookupStr (gs "version") ps,
          lookupStr (gs "synopsis") ps, lookupStr (gs "repository") ps,
          lookupStr (gs "license") ps⟩

/-- The pure content part of `loadLibraryInfoFromMarkdown` (everything after
`os.ReadFile`; the expiry check and the read are modelled at the
file-system level by the fetch orchestrator). -/
def loadLibraryInfoFromMarkdown (content : GoStr) : Except GoStr LibraryInfo :=
  let parts := splitN3 content
  if parts.length < 3 then .error (gs "invalid markdown format: missing frontmatter")
  else
    match parseLibMeta (parts.getD 1 []) with
    | none => .error (gs "failed to parse frontmatter")
    | some m =>
      .ok ⟨m.importPath, m.version, m.synopsis, trimSpace (parts.getD 2 []),
           m.repository, m.license⟩

/-! ## Cache manager (`cache.Manager` — `IsExpired`, `Load`, `Save`)

The file system is an association list from paths to (stored value,
modification time); the clock and the TTL are naturals in a fixed unit.
`json.Marshal`/`json.Unmarshal` roundtrip a value of a fixed Go type, so the
store holds the decoded values directly.  Read errors other than
`os.IsNotExist` (permissions, exotic stat failures) are outside the
file-system model. -/

/-- A file store: path, stored value, modification time. -/
abbrev FileMap (α : Type) := List (GoStr × α × Nat)

def lookupFile {α : Type} : FileMap α → GoStr → Option (α × Nat)
  | [], _ => none
  | (p, v, t) :: rest, path => if p = path then some (v, t) else lookupFile rest path

/-- `os.WriteFile` (creates or wholly overwrites; mtime set to the clock). -/
def updateFile {α : Type} : FileMap α → GoStr → α → Nat → FileMap α
  | [], path, v, now => [(path, v, now)]
  | (p, w, t) :: rest, path, v, now =>
    if p = path then (path, v, now) :: rest else (p, w, t) :: updateFile rest path v now

/-- `os.Remove`. -/
def removeFile {α : Type} : FileMap α → GoStr → FileMap α
  | [], _ => []
  | (p, w, t) :: rest, path =>
    if p = path then rest else (p, w, t) :: removeFile rest path

namespace Cache

/-- `cache.Manager`. -/
structure Manager where
  cacheDir : GoStr
  ttl : Nat

/-- `Manager.IsExpired`: TTL = 0 never expires; a missing file is treated as
expired; otherwise the file is expired when `now - mtime > ttl`
(`time.Since(info.ModTime()) > m.ttl`; a modification time in the future
yields a non-positive age in Go and a zero age here, not expired either way). -/
def Manager.IsExpired {α : Type} (m : Manager) (now : Nat) (files : FileMap α)
    (filePath : GoStr) : Bool :=
  if m.ttl = 0 then false
  else
    match lookupFile files filePath with
    | none => true
    | some (_, mtime) => decide (m.ttl < now - mtime)

/-- `Manager.Load`: returns `some v` for a hit (`true, nil` in Go), `none`
for a miss (`false, nil`), together with the file store after the
self-cleaning removal of an expired entry. -/
def Manager.Load {α : Type} (m : Manager) (now : Nat) (files : FileMap α)
    (filePath : GoStr) : Option α × FileMap α :=
  if m.IsExpired now files filePath then
    (none, if 0 < m.ttl then removeFile files filePath else files)
  else
    match lookupFile files filePath with
    | none => (none, files)
    | some (v, _) => (some v, files)

/-- `Manager.Save` (`os.MkdirAll` + `json.MarshalIndent` + `os.WriteFile`). -/
def Manager.Save {α : Type} (_ : Manager) (now : Nat) (files : FileMap α)
    (filePath : GoStr) (v : α) : FileMap α :=
  updateFile files filePath v now

end Cache

/-! ## Version resolver (`go_fetcher.go`: `getLatestVersion`)

`queryProxyLatest` (an HTTP GET of `proxy.golang.org/<path>/@latest` plus a
JSON decode) is an injected oracle `GoStr → Option GoStr`; `none` stands for
any failure (network error, non-200 status, JSON decode error), `some v` for
a 200 response whose `Version` field is `v`. -/

/-- Decimal representation of a natural (for the `/v%d` suffixes). -/
def natStr (n : Nat) : GoStr := (Nat.repr n).data

/-- The body of the `for major := 2; major <= 10` loop of `getLatestVersion`:
a successful probe of `importPath/v<major>` overwrites the accumulated
(version, path) candidate, a failed probe leaves it unchanged. -/
def probeStep (query : GoStr → Option GoStr) (importPath : GoStr)
    (acc : GoStr × GoStr) (major : Nat) : GoStr × GoStr :=
  match query (importPath ++ gs "/v" ++ natStr major) with
  | some v => (v, importPath ++ gs "/v" ++ natStr major)
  | none => acc

/-- `getLatestVersion`: probe the base path, then `/v2` .. `/v10` in
ascending order, every successful probe overwriting the running best
candidate; error when no version was found; when the winner is a suffixed
path, return `version ++ ":" ++ path`. -/
def getLatestVersion (query : GoStr → Option GoStr) (importPath : GoStr) :
    Except GoStr GoStr :=
  let init : GoStr × GoStr :=
    match query importPath with
    | some v => (v, importPath)
    | none => ([], [])
  let res := (List.range' 2 9).foldl (probeStep query importPath) init
  if res.1 = [] then .error (gs "no versions found for " ++ importPath)
  else if res.2 = importPath then .ok res.1
  else .ok (res.1 ++ gs ":" ++ res.2)

/-! ## Fetch orchestrator (`go_fetcher.go`: `FetchLibraryInfo`)

The pkg.go.dev retrieval (`client.Get` of the package page, the HTML parse
and the four `extract*` field extractors) is an injected oracle
`retrieve : importPath → version → Option Extracted`; `none` stands for any
failure there (network error, non-200 status, HTML parse error).  The third
component of the result counts how many times `retrieve` was invoked. -/

/-- The fields extracted from the fetched pkg.go.dev page. -/
structure Extracted where
  synopsis    : GoStr
  description : GoStr
  repository  : GoStr
  license     : GoStr
deriving Repr, DecidableEq

/-- The `GoFetcher` context: cache configuration plus network oracles. -/
structure GoFetcherEnv where
  cacheDir : GoStr
  ttl      : Nat
  proxy    : GoStr → Option GoStr
  retrieve : GoStr → GoStr → Option Extracted

/-- Mutable world state of a fetch: the cache file store and the clock. -/
structure FetchState where
  files : FileMap GoStr
  now   : Nat

/-- The file-system part of the Go `loadLibraryInfoFromMarkdown`: the
expiry check (`cache.IsExpired`), the `os.ReadFile`, then the pure content
parse (`loadLibraryInfoFromMarkdown` above). -/
def loadLibraryInfoFS (env : GoFetcherEnv) (st : FetchState) (path : GoStr) :
    Except GoStr LibraryInfo :=
  if (Cache.Manager.mk env.cacheDir env.ttl).IsExpired st.now st.files path then
    .error (gs "file not found or expired")
  else
    match lookupFile st.files path with
    | none => .error (gs "file not found")
    | some (content, _) => loadLibraryInfoFromMarkdown content

/-- `FetchLibraryInfo`: resolve an empty version via the proxy (failures
logged and swallowed), build the cache path, serve from cache when the
cached markdown loads, otherwise fetch, persist and return.  Returns
(result, new state, number of pkg.go.dev retrievals). -/
def FetchLibraryInfo (env : GoFetcherEnv) (st : FetchState)
    (importPath0 version0 : GoStr) : Except GoStr LibraryInfo × FetchState × Nat :=
  -- version resolution for an empty version
  let resolved : GoStr × GoStr :=
    if version0 = [] then
      match getLatestVersion env.proxy importPath0 with
      | .error _ => (importPath0, version0)
      | .ok lv =>
        if strContains lv (gs ":") then
          match splitOnceChar ':' lv with
          | some (v, p) => (p, v)
          | none => (importPath0, lv)
        else (importPath0, lv)
    else (importPath0, version0)
  let importPath := resolved.1
  let version := resolved.2
  -- cache path (`cache.GetFilePath("go", "libraries", cacheKey + ".md")`)
  let cacheKey :=
    if version = [] then replaceSlashUnderscore importPath
    else replaceSlashUnderscore importPath ++ gs "_" ++ version
  let cachedPath := env.cacheDir ++ gs "/go/libraries/" ++ cacheKey ++ gs ".md"
  -- try the cache
  match loadLibraryInfoFS env st cachedPath with
  | .ok li => (.ok li, st, 0)
  | .error _ =>
    -- fetch from pkg.go.dev, build the record, persist, return
    match env.retrieve importPath version with
    | none => (.error (gs "failed to fetch library info"), st, 1)
    | some ex =>
      let li : LibraryInfo :=
        ⟨importPath, version, ex.synopsis, ex.description, ex.repository, ex.license⟩
      let files2 := updateFile st.files cachedPath (saveLibraryInfoAsMarkdown li) st.now
      (.ok li, ⟨files2, st.now⟩, 1)

/-! ## Document corpus, search and lookup (`provider/provider.go`)

Go maps (`map[string]*Documentation`, `map[string]*Topic`) are modelled as
association lists; map indexing is first-match lookup, map assignment is
update-or-append.  Go's iteration order over a map is unspecified — the list
order is one determinization of it, and no theorem below depends on it
beyond what the code guarantees for every order.  Scores are sums of the
integer constants 10/5/3/1, exact in `float64`, hence modelled as `Nat`. -/

namespace Provider

/-- `provider.Topic`. -/
structure Topic where
  id            : GoStr
  title         : GoStr
  description   : GoStr
  content       : GoStr
  keywords      : List GoStr
  documentation : GoStr
deriving Repr, DecidableEq

/-- `provider.Documentation` (`Topics` as an association list keyed by id). -/
structure Documentation where
  name        : GoStr
  displayName : GoStr
  description : GoStr
  topics      : List (GoStr × Topic)
deriving Repr, DecidableEq

/-- `provider.SearchResult`. -/
structure SearchResult where
  id            : GoStr
  title         : GoStr
  description   : GoStr
  documentation : GoStr
  score         : Nat
deriving Repr, DecidableEq

/-- `provider.Provider` (the loaded corpus). -/
structure Provider where
  documentations : List (GoStr × Documentation)
deriving Repr, DecidableEq

/-- Go map lookup `m[k]` on an association list. -/
def lookupAssoc {β : Type} : List (GoStr × β) → GoStr → Option β
  | [], _ => none
  | (k2, v) :: rest, k => if k2 = k then some v else lookupAssoc rest k

/-- Go map assignment `m[k] = v` on an association list. -/
def updateAssoc {β : Type} : List (GoStr × β) → GoStr → β → List (GoStr × β)
  | [], k, v => [(k, v)]
  | (k2, w) :: rest, k, v =>
    if k2 = k then (k, v) :: rest else (k2, w) :: updateAssoc rest k v

/-- `Provider.calculateScore` (the query arrives already lowercased from
`Search`): +10 title match, +5 per keyword match, +3 description match,
+1 content match, all case-insensitive substring tests. -/
def calculateScore (query : GoStr) (topic : Topic) : Nat :=
  let s1 := if strContains (strToLower topic.title) query then 0 + 10 else 0
  let s2 := topic.keywords.foldl
    (fun acc k => if strContains (strToLower k) query then acc + 5 else acc) s1
  let s3 := if strContains (strToLower topic.description) query then s2 + 3 else s2
  if strContains (strToLower topic.content) query then s3 + 1 else s3

/-- One pass of the inner loop of `Search`'s pairwise-swap sort, with `x` at
position `i`: every later element with a strictly greater score is swapped
into position `i`; returns the element finally at position `i` (the maximum)
and the later positions after the swaps. -/
def innerPass : SearchResult → List SearchResult → SearchResult × List SearchResult
  | x, [] => (x, [])
  | x, y :: ys =>
    if x.score < y.score then
      let p := innerPass y ys
      (p.1, x :: p.2)
    else
      let p := innerPass x ys
      (p.1, y :: p.2)

theorem innerPass_length (x : SearchResult) (l : List SearchResult) :
    (innerPass x l).2.length = l.length := by
  induction l generalizing x with
  | nil => rfl
  | cons y ys ih =>
    simp only [innerPass]
    split
    · simpa using ih y
    · simpa using ih x

/-- The outer loop of the sort, running one `innerPass` per position; the
remaining iteration count of the Go index loop is the list length, carried
explicitly so that the function evaluates by reduction. -/
def sortPasses : Nat → List SearchResult → List SearchResult
  | 0, l => l
  | _ + 1, [] => []
  | n + 1, x :: xs =>
    let p := innerPass x xs
    p.1 :: sortPasses n p.2

/-- The sort at the end of `Provider.Search` (descending by score). -/
def sortResults (l : List SearchResult) : List SearchResult :=
  sortPasses l.length l

/-- `Provider.Search`: filter by collection, score every topic, keep the
strictly positive scores, sort descending by score. -/
def Search (p : Provider) (query documentation : GoStr) : List SearchResult :=
  let q := strToLower query
  let results := p.documentations.foldr
    (fun pr acc =>
      if documentation ≠ [] ∧ pr.1 ≠ documentation then acc
      else
        (pr.2.topics.filterMap (fun tp =>
          let score := calculateScore q tp.2
          if 0 < score then
            some ⟨tp.2.id, tp.2.title, tp.2.description, pr.1, score⟩
          else none)) ++ acc)
    []
  sortResults results

/-- The by-id scan of `Provider.GetDoc` (`documentation.Topics[id]` inside
the filtered documentation loop). -/
def findContentById : List (GoStr × Documentation) → GoStr → GoStr → Option GoStr
  | [], _, _ => none
  | (docName, d) :: rest, id, docFilter =>
    if docFilter ≠ [] ∧ docName ≠ docFilter then findContentById rest id docFilter
    else
      match lookupAssoc d.topics id with
      | some t => some t.content
      | none => findContentById rest id docFilter

/-- `strings.EqualFold` (ASCII model: equality after lowercasing). -/
def equalFold (a b : GoStr) : Bool := strToLower a == strToLower b

/-- The by-title scan of `Provider.GetDoc`: first topic whose title or id
matches case-insensitively, inside the filtered documentation loop. -/
def findContentByTitle : List (GoStr × Documentation) → GoStr → GoStr → Option GoStr
  | [], _, _ => none
  | (docName, d) :: rest, topic, docFilter =>
    if docFilter ≠ [] ∧ docName ≠ docFilter then findContentByTitle rest topic docFilter
    else
      match d.topics.find? (fun tp => equalFold tp.2.title topic || equalFold tp.2.id topic) with
      | some tp => some tp.2.content
      | none => findContentByTitle rest topic docFilter

/-- `Provider.GetDoc`. -/
def GetDoc (p : Provider) (id doc topic : GoStr) : Except GoStr GoStr :=
  if id ≠ [] then
    match findContentById p.documentations id doc with
    | some c => .ok c
    | none => .error (gs "documentation not found for id: " ++ id)
  else if topic ≠ [] then
    match findContentByTitle p.documentations topic doc with
    | some c => .ok c
    | none => .error (gs "documentation not found for topic: " ++ topic)
  else
    .error (gs "either id or topic must be provided")

/-! ### Corpus load (`Provider.loadDocumentation`)

`os.ReadDir`, `os.ReadFile` and `json.Unmarshal` are external collaborators;
a directory entry carries the outcome of reading its `metadata.json`
(missing / malformed / a parsed `Documentation`) and of reading each file in
its `topics` subdirectory (not loadable — a subdirectory, a non-`.json`
name, an unreadable file or malformed JSON, all silently skipped — or a
parsed `Topic`). -/

/-- Outcome of reading a collection's `metadata.json`. -/
inductive MetaFile
  | missing
  | malformed
  | valid (d : Documentation)
deriving Repr, DecidableEq

/-- Outcome of reading one entry of a collection's `topics` directory. -/
inductive TopicFile
  | notLoadable
  | valid (t : Topic)
deriving Repr, DecidableEq

/-- One entry of the corpus root directory. -/
structure DirEntry where
  name       : GoStr
  isDir      : Bool
  meta       : MetaFile
  topicFiles : List TopicFile
deriving Repr, DecidableEq

/-- `strings.ToUpper(docName[:1]) + docName[1:]` guarded by `len > 0`. -/
def upperFirst : GoStr → GoStr
  | [] => []
  | c :: rest => c.toUpper :: rest

/-- The default `Documentation` generated when `metadata.json` is missing. -/
def defaultMetadata (docName : GoStr) : Documentation :=
  ⟨docName, upperFirst docName, gs "Documentation for " ++ docName, []⟩

/-- Load the topic files of one collection into its topics map
(`topic.Documentation = docName; documentation.Topics[topic.ID] = &topic`). -/
def loadTopics (docName : GoStr) : List TopicFile → List (GoStr × Topic) → List (GoStr × Topic)
  | [], acc => acc
  | .notLoadable :: rest, acc => loadTopics docName rest acc
  | .valid t :: rest, acc =>
    loadTopics docName rest (updateAssoc acc t.id { t with documentation := docName })

/-- Process one root directory entry
(`p.documentations[docName] = &documentation`, or the early `return` on a
malformed `metadata.json`). -/
def loadOneDir (acc : List (GoStr × Documentation)) (e : DirEntry) :
    Except GoStr (List (GoStr × Documentation)) :=
  if e.isDir = false then .ok acc
  else
    match e.meta with
    | .malformed => .error (gs "failed to parse metadata for " ++ e.name)
    | .missing =>
      let d := defaultMetadata e.name
      .ok (updateAssoc acc e.name { d with topics := loadTopics e.name e.topicFiles d.topics })
    | .valid d =>
      .ok (updateAssoc acc e.name { d with topics := loadTopics e.name e.topicFiles d.topics })

/-- `Provider.loadDocumentation`: walk the root entries in order,
accumulating loaded collections; a malformed `metadata.json` returns the
error immediately, keeping what was already stored on the provider
(`NewProvider` then logs the error and keeps the partial corpus). -/
def loadDocumentation : List DirEntry → List (GoStr × Documentation) →
    Option GoStr × List (GoStr × Documentation)
  | [], acc => (none, acc)
  | e :: rest, acc =>
    match loadOneDir acc e with
    | .error msg => (some msg, acc)
    | .ok acc2 => loadDocumentation rest acc2

end Provider

/-! # Helper lemmas -/

section CacheLemmas

variable {α : Type}

theorem lookupFile_updateFile_self (files : FileMap α) (path : GoStr) (v : α) (t : Nat) :
    lookupFile (updateFile files path v t) path = some (v, t) := by
  induction files with
  | nil => simp [updateFile, lookupFile]
  | cons e rest ih =>
    obtain ⟨p, w, tw⟩ := e
    by_cases h : p = path
    · simp [updateFile, h, lookupFile]
    · simp [updateFile, h, lookupFile, ih]

theorem lookupFile_updateFile_other (files : FileMap α) (path q : GoStr) (v : α) (t : Nat)
    (h : q ≠ path) : lookupFile (updateFile files path v t) q = lookupFile files q := by
  have h' : path ≠ q := Ne.symm h
  induction files with
  | nil => simp [updateFile, lookupFile, h']
  | cons e rest ih =>
    obtain ⟨p, w, tw⟩ := e
    by_cases hp : p = path
    · subst hp
      simp [updateFile, lookupFile, h']
    · by_cases hq : p = q <;> simp [updateFile, hp, lookupFile, hq, ih, h]

end CacheLemmas

section ResolverLemmas

/-- The suffixes `/v2` .. `/v10` probed by `getLatestVersion`. -/
def majorRange : List Nat := List.range' 2 9

theorem majorRange_eq : majorRange = [2, 3, 4, 5, 6, 7, 8, 9, 10] := by decide

/-- Unfolded form of the probe loop of `getLatestVersion`. -/
theorem getLatestVersion_eq (query : GoStr → Option GoStr) (importPath : GoStr) :
    getLatestVersion query importPath =
      (let init : GoStr × GoStr :=
        match query importPath with
        | some v => (v, importPath)
        | none => ([], [])
      let res := [2, 3, 4, 5, 6, 7, 8, 9, 10].foldl (probeStep query importPath) init
      if res.1 = [] then .error (gs "no versions found for " ++ importPath)
      else if res.2 = importPath then .ok res.1
      else .ok (res.1 ++ gs ":" ++ res.2)) := by
  have : List.range' 2 9 = [2, 3, 4, 5, 6, 7, 8, 9, 10] := by decide
  simp only [getLatestVersion, this]

theorem append_ne_self_of_ne_nil (a b : GoStr) (hb : b ≠ []) : a ++ b ≠ a := by
  intro h
  have := congrArg List.length h
  simp at this
  exact hb this

end ResolverLemmas

section ProbeLemmas

theorem probeStep_none (query : GoStr → Option GoStr) (p : GoStr) (acc : GoStr × GoStr)
    (m : Nat) (h : query (p ++ gs "/v" ++ natStr m) = none) :
    probeStep query p acc m = acc := by
  unfold probeStep
  rw [h]

theorem probeStep_some (query : GoStr → Option GoStr) (p : GoStr) (acc : GoStr × GoStr)
    (m : Nat) (v : GoStr) (h : query (p ++ gs "/v" ++ natStr m) = some v) :
    probeStep query p acc m = (v, p ++ gs "/v" ++ natStr m) := by
  unfold probeStep
  rw [h]

theorem foldl_probeStep_none (query : GoStr → Option GoStr) (p : GoStr) :
    ∀ (ms : List Nat) (acc : GoStr × GoStr),
      (∀ m ∈ ms, query (p ++ gs "/v" ++ natStr m) = none) →
      List.foldl (probeStep query p) acc ms = acc := by
  intro ms
  induction ms with
  | nil => intro acc _; rfl
  | cons k rest ih =>
    intro acc h
    rw [List.foldl_cons, probeStep_none query p acc k (h k (by simp))]
    exact ih acc (fun m hm => h m (by simp [hm]))

theorem foldl_probeStep_win (query : GoStr → Option GoStr) (p : GoStr)
    (ms1 ms2 : List Nat) (k : Nat) (v : GoStr) (acc : GoStr × GoStr)
    (hk : query (p ++ gs "/v" ++ natStr k) = some v)
    (h2 : ∀ m ∈ ms2, query (p ++ gs "/v" ++ natStr m) = none) :
    List.foldl (probeStep query p) acc (ms1 ++ k :: ms2) =
      (v, p ++ gs "/v" ++ natStr k) := by
  rw [List.foldl_append, List.foldl_cons,
      probeStep_some query p _ k v hk]
  exact foldl_probeStep_none query p ms2 _ h2

end ProbeLemmas

/-! # Claims C1 and C6 — version resolution -/

/-- **C1.** With an empty requested version, `getLatestVersion` probes the
base import path and `/v2` … `/v10` in ascending order, each success
overwriting the running best candidate; so when the base, `/v2` and `/v4`
all resolve but `/v3` fails (and the higher suffixes fail too), the `/v4`
result wins over the base and `/v2` results, and because the winner came
from a suffixed path the result reports both the resolved version and the
effective suffixed identifier (`version ++ ":" ++ path`). -/
theorem c1_highest_suffix_wins (query : GoStr → Option GoStr) (p b v2 v4 : GoStr)
    (hb : query p = some b)
    (h2 : query (p ++ gs "/v" ++ natStr 2) = some v2)
    (h3 : query (p ++ gs "/v" ++ natStr 3) = none)
    (h4 : query (p ++ gs "/v" ++ natStr 4) = some v4)
    (hrest : ∀ m, 5 ≤ m → m ≤ 10 → query (p ++ gs "/v" ++ natStr m) = none)
    (hv4 : v4 ≠ []) :
    getLatestVersion query p = .ok (v4 ++ gs ":" ++ (p ++ gs "/v4")) := by
  have hpath : p ++ gs "/v" ++ natStr 4 = p ++ gs "/v4" := by
    rw [List.append_assoc]
    rfl
  have hwin : List.foldl (probeStep query p)
      (match query p with
       | some v => (v, p)
       | none => ([], []))
      ([2, 3] ++ 4 :: [5, 6, 7, 8, 9, 10]) = (v4, p ++ gs "/v4") := by
    rw [← hpath]
    apply foldl_probeStep_win query p [2, 3] [5, 6, 7, 8, 9, 10] 4 v4 _ h4
    intro m hm
    have hm' : m = 5 ∨ m = 6 ∨ m = 7 ∨ m = 8 ∨ m = 9 ∨ m = 10 := by simpa using hm
    rcases hm' with h | h | h | h | h | h <;>
      exact h ▸ hrest _ (by omega) (by omega)
  have hrange : List.range' 2 9 = [2, 3] ++ 4 :: [5, 6, 7, 8, 9, 10] := by decide
  have hne : p ++ gs "/v4" ≠ p :=
    append_ne_self_of_ne_nil p _ (by decide)
  simp only [getLatestVersion, hrange, hwin]
  simp [hv4, hne]

/-- Witness for C1 at a concrete oracle. -/
theorem c1_witness :
    getLatestVersion
      (fun q =>
        if q = gs "m" then some (gs "v1.9.0")
        else if q = gs "m/v2" then some (gs "v2.1.0")
        else if q = gs "m/v4" then some (gs "v4.0.1")
        else none)
      (gs "m") = .ok (gs "v4.0.1" ++ gs ":" ++ (gs "m" ++ gs "/v4")) :=
  c1_highest_suffix_wins _ (gs "m") (gs "v1.9.0") (gs "v2.1.0") (gs "v4.0.1")
    (by decide) (by decide) (by decide) (by decide)
    (by intro m h1 h2; interval_cases m <;> decide) (by decide)

/-- **C6.** (i) When no suffix probe succeeds but the base query does (with
a nonempty version string), the base version is returned with the unchanged
base identifier (no `:`-rewrite).  (ii) When nothing resolves, resolution
fails with the "no versions found" error.  (iii) A failing base (or lower
suffix) probe never aborts the others: a base with no versions but a
resolvable `/v3` line still resolves to the `/v3` result. -/
theorem c6_resolution_fallbacks :
    (∀ (query : GoStr → Option GoStr) (p b : GoStr), query p = some b → b ≠ [] →
      (∀ m, 2 ≤ m → m ≤ 10 → query (p ++ gs "/v" ++ natStr m) = none) →
      getLatestVersion query p = .ok b) ∧
    (∀ (query : GoStr → Option GoStr) (p : GoStr), query p = none →
      (∀ m, 2 ≤ m → m ≤ 10 → query (p ++ gs "/v" ++ natStr m) = none) →
      getLatestVersion query p = .error (gs "no versions found for " ++ p)) ∧
    (∀ (query : GoStr → Option GoStr) (p v3 : GoStr), query p = none → v3 ≠ [] →
      query (p ++ gs "/v" ++ natStr 3) = some v3 →
      (∀ m, 2 ≤ m → m ≤ 10 → m ≠ 3 → query (p ++ gs "/v" ++ natStr m) = none) →
      getLatestVersion query p = .ok (v3 ++ gs ":" ++ (p ++ gs "/v3"))) := by
  refine ⟨?_, ?_, ?_⟩
  · intro query p b hb hbne hall
    have hnone : List.foldl (probeStep query p)
        (match query p with
         | some v => (v, p)
         | none => ([], []))
        (List.range' 2 9) = (b, p) := by
      rw [hb]
      apply foldl_probeStep_none
      intro m hm
      obtain ⟨i, hi, rfl⟩ := List.mem_range'.mp hm
      exact hall _ (by omega) (by omega)
    simp only [getLatestVersion, hnone]
    simp [hbne]
  · intro query p hb hall
    have hnone : List.foldl (probeStep query p)
        (match query p with
         | some v => (v, p)
         | none => ([], []))
        (List.range' 2 9) = ([], []) := by
      rw [hb]
      apply foldl_probeStep_none
      intro m hm
      obtain ⟨i, hi, rfl⟩ := List.mem_range'.mp hm
      exact hall _ (by omega) (by omega)
    simp only [getLatestVersion, hnone]
    simp
  · intro query p v3 hb hv3ne h3 hothers
    have hpath : p ++ gs "/v" ++ natStr 3 = p ++ gs "/v3" := by
      rw [List.append_assoc]
      rfl
    have hwin : List.foldl (probeStep query p)
        (match query p with
         | some v => (v, p)
         | none => ([], []))
        ([2] ++ 3 :: [4, 5, 6, 7, 8, 9, 10]) = (v3, p ++ gs "/v3") := by
      rw [← hpath]
      apply foldl_probeStep_win query p [2] [4, 5, 6, 7, 8, 9, 10] 3 v3 _ h3
      intro m hm
      have hm' : m = 4 ∨ m = 5 ∨ m = 6 ∨ m = 7 ∨ m = 8 ∨ m = 9 ∨ m = 10 := by simpa using hm
      rcases hm' with h | h | h | h | h | h | h <;>
        exact h ▸ hothers _ (by omega) (by omega) (by omega)
    have hrange : List.range' 2 9 = [2] ++ 3 :: [4, 5, 6, 7, 8, 9, 10] := by decide
    have hne : p ++ gs "/v3" ≠ p :=
      append_ne_self_of_ne_nil p _ (by decide)
    simp only [getLatestVersion, hrange, hwin]
    simp [hv3ne, hne]

/-- Witness for C6 (all three conjuncts at concrete oracles). -/
theorem c6_witness :
    getLatestVersion (fun q => if q = gs "m" then some (gs "v1.2.3") else none) (gs "m")
      = .ok (gs "v1.2.3") ∧
    getLatestVersion (fun _ => none) (gs "m")
      = .error (gs "no versions found for " ++ gs "m") ∧
    getLatestVersion (fun q => if q = gs "m/v3" then some (gs "v3.0.0") else none) (gs "m")
      = .ok (gs "v3.0.0" ++ gs ":" ++ (gs "m" ++ gs "/v3")) :=
  ⟨c6_resolution_fallbacks.1 _ (gs "m") (gs "v1.2.3") (by decide) (by decide)
      (by intro m h1 h2; interval_cases m <;> decide),
   c6_resolution_fallbacks.2.1 _ (gs "m") (by decide)
      (by intro m h1 h2; interval_cases m <;> decide),
   c6_resolution_fallbacks.2.2 _ (gs "m") (gs "v3.0.0") (by decide) (by decide) (by decide)
      (by intro m h1 h2 h3; interval_cases m <;> first | decide | omega)⟩

/-! # Claims C2 and C7 — cache TTL semantics -/

/-- **C2 counterexample.** The claim asserts a miss (with deletion) for any
query at `T' ≥ T + TTL`.  At the boundary `T' = T + TTL` the code compares
with strict `age > ttl` and reports a *hit*: with TTL = 1, an entry saved at
time 0 and queried at time 1 (`1 ≥ 0 + 1`) loads successfully. -/
theorem c2_counterexample :
    (0 : Nat) + 1 ≤ 1 ∧
    ((Cache.Manager.mk (gs "d") 1).Load 1
        ((Cache.Manager.mk (gs "d") 1).Save 0 ([] : FileMap Nat) (gs "p") 42) (gs "p")).1
      = some 42 := by
  constructor
  · decide
  · rfl

/-- **C2 (amended).** For a manager with TTL > 0 and an entry saved at time
`T`: a load at `T' ≤ T + TTL` is a hit leaving the store unchanged, and a
load at `T' > T + TTL` is a miss whose side effect is deletion of the file;
for TTL = 0 a load of the saved entry is a hit regardless of age.  (The
boundary instant `T' = T + TTL` is a hit — strict `age > ttl` in
`IsExpired` — where the claim asserted a miss.) -/
theorem c2_ttl_expiry {α : Type} (dir : GoStr) (ttl T Tq : Nat) (files : FileMap α)
    (path : GoStr) (v : α) :
    (0 < ttl → Tq ≤ T + ttl →
      (Cache.Manager.mk dir ttl).Load Tq
          ((Cache.Manager.mk dir ttl).Save T files path v) path
        = (some v, (Cache.Manager.mk dir ttl).Save T files path v)) ∧
    (0 < ttl → T + ttl < Tq →
      (Cache.Manager.mk dir ttl).Load Tq
          ((Cache.Manager.mk dir ttl).Save T files path v) path
        = (none, removeFile ((Cache.Manager.mk dir ttl).Save T files path v) path)) ∧
    (ttl = 0 →
      (Cache.Manager.mk dir ttl).Load Tq
          ((Cache.Manager.mk dir ttl).Save T files path v) path
        = (some v, (Cache.Manager.mk dir ttl).Save T files path v)) := by
  have hlook : lookupFile ((Cache.Manager.mk dir ttl).Save T files path v) path
      = some (v, T) := lookupFile_updateFile_self files path v T
  refine ⟨?_, ?_, ?_⟩
  · intro httl hle
    have hexp : (Cache.Manager.mk dir ttl).IsExpired Tq
        ((Cache.Manager.mk dir ttl).Save T files path v) path = false := by
      simp [Cache.Manager.IsExpired, hlook, Nat.pos_iff_ne_zero.mp httl]
      omega
    simp [Cache.Manager.Load, hexp, hlook]
  · intro httl hgt
    have hexp : (Cache.Manager.mk dir ttl).IsExpired Tq
        ((Cache.Manager.mk dir ttl).Save T files path v) path = true := by
      simp [Cache.Manager.IsExpired, hlook, Nat.pos_iff_ne_zero.mp httl]
      omega
    simp [Cache.Manager.Load, hexp, httl]
  · intro h0
    have hexp : (Cache.Manager.mk dir ttl).IsExpired Tq
        ((Cache.Manager.mk dir ttl).Save T files path v) path = false := by
      simp [Cache.Manager.IsExpired, h0]
    simp [Cache.Manager.Load, hexp, hlook]

/-- Witness for C2 (hit strictly inside the window; miss with deletion past
it; TTL = 0 hit at a very late query time). -/
theorem c2_witness :
    ((Cache.Manager.mk (gs "d") 5).Load 3
        ((Cache.Manager.mk (gs "d") 5).Save 0 ([] : FileMap Nat) (gs "p") 7) (gs "p")
      = (some 7, (Cache.Manager.mk (gs "d") 5).Save 0 ([] : FileMap Nat) (gs "p") 7)) ∧
    ((Cache.Manager.mk (gs "d") 5).Load 99
        ((Cache.Manager.mk (gs "d") 5).Save 0 ([] : FileMap Nat) (gs "p") 7) (gs "p")
      = (none, removeFile ((Cache.Manager.mk (gs "d") 5).Save 0 ([] : FileMap Nat) (gs "p") 7)
          (gs "p"))) ∧
    ((Cache.Manager.mk (gs "d") 0).Load 1000000
        ((Cache.Manager.mk (gs "d") 0).Save 0 ([] : FileMap Nat) (gs "p") 7) (gs "p")
      = (some 7, (Cache.Manager.mk (gs "d") 0).Save 0 ([] : FileMap Nat) (gs "p") 7)) :=
  ⟨(c2_ttl_expiry (gs "d") 5 0 3 [] (gs "p") 7).1 (by decide) (by decide),
   (c2_ttl_expiry (gs "d") 5 0 99 [] (gs "p") 7).2.1 (by decide) (by decide),
   (c2_ttl_expiry (gs "d") 0 0 1000000 [] (gs "p") 7).2.2 rfl⟩

/-- **C7 counterexample.** The claim asserts `IsExpired` returns `false` for
a nonexistent location for *every* configured TTL; with TTL = 1 and an empty
store the code returns `true` (`os.IsNotExist` is mapped to
"treat as expired"), so both the "returns false" part and the
"true only for an existing file" part fail. -/
theorem c7_counterexample :
    (Cache.Manager.mk (gs "d") 1).IsExpired 0 ([] : FileMap Nat) (gs "p") = true := by
  rfl

/-- **C7 (amended).** `IsExpired` returns `false` for a nonexistent location
exactly when TTL = 0; when TTL > 0 a nonexistent location yields `true`
(which `Load` maps to a miss with no error); and for an existing file with
TTL > 0, `true` holds iff `now - mtime > ttl`.  Nonexistence is thus
reported to the caller as a miss either way, but through `true`, not
`false`, when TTL > 0. -/
theorem c7_isexpired_missing {α : Type} (dir : GoStr) (ttl now : Nat)
    (files : FileMap α) (path : GoStr) :
    (ttl = 0 → (Cache.Manager.mk dir ttl).IsExpired now files path = false) ∧
    (0 < ttl → lookupFile files path = none →
      (Cache.Manager.mk dir ttl).IsExpired now files path = true) ∧
    (0 < ttl → ∀ (v : α) (mtime : Nat), lookupFile files path = some (v, mtime) →
      ((Cache.Manager.mk dir ttl).IsExpired now files path = true ↔ ttl < now - mtime)) ∧
    (0 < ttl → lookupFile files path = none →
      (Cache.Manager.mk dir ttl).Load now files path = (none, removeFile files path)) := by
  refine ⟨?_, ?_, ?_, ?_⟩
  · intro h0
    simp [Cache.Manager.IsExpired, h0]
  · intro httl hmiss
    simp [Cache.Manager.IsExpired, hmiss, Nat.pos_iff_ne_zero.mp httl]
  · intro httl v mtime hsome
    simp [Cache.Manager.IsExpired, hsome, Nat.pos_iff_ne_zero.mp httl]
  · intro httl hmiss
    have hexp : (Cache.Manager.mk dir ttl).IsExpired now files path = true := by
      simp [Cache.Manager.IsExpired, hmiss, Nat.pos_iff_ne_zero.mp httl]
    simp [Cache.Manager.Load, hexp, httl]

/-- Witness for C7 (TTL = 0 missing file: false; TTL = 2 missing file: true
and a clean miss from `Load`; TTL = 2 existing fresh file: not expired). -/
theorem c7_witness :
    ((Cache.Manager.mk (gs "d") 0).IsExpired 9 ([] : FileMap Nat) (gs "p") = false) ∧
    ((Cache.Manager.mk (gs "d") 2).IsExpired 9 ([] : FileMap Nat) (gs "p") = true) ∧
    (((Cache.Manager.mk (gs "d") 2).IsExpired 9 ([(gs "p", 5, 8)] : FileMap Nat) (gs "p") = true)
      ↔ (2 : Nat) < 9 - 8) ∧
    ((Cache.Manager.mk (gs "d") 2).Load 9 ([] : FileMap Nat) (gs "p")
      = (none, removeFile ([] : FileMap Nat) (gs "p"))) :=
  ⟨(c7_isexpired_missing (gs "d") 0 9 ([] : FileMap Nat) (gs "p")).1 rfl,
   (c7_isexpired_missing (gs "d") 2 9 ([] : FileMap Nat) (gs "p")).2.1 (by decide) rfl,
   (c7_isexpired_missing (gs "d") 2 9 ([(gs "p", 5, 8)] : FileMap Nat) (gs "p")).2.2.1
      (by decide) 5 8 (by rfl),
   (c7_isexpired_missing (gs "d") 2 9 ([] : FileMap Nat) (gs "p")).2.2.2 (by decide) rfl⟩

/-! # Claim C10 — GetDoc argument handling -/

namespace Provider

theorem findContentById_none (docs : List (GoStr × Documentation)) (id docFilter : GoStr)
    (h : ∀ pr ∈ docs, lookupAssoc pr.2.topics id = none) :
    findContentById docs id docFilter = none := by
  induction docs with
  | nil => rfl
  | cons pr rest ih =>
    obtain ⟨docName, d⟩ := pr
    have hd := h (docName, d) (by simp)
    have hrest : ∀ pr ∈ rest, lookupAssoc pr.2.topics id = none :=
      fun pr hpr => h pr (List.mem_cons_of_mem _ hpr)
    by_cases hskip : docFilter ≠ [] ∧ docName ≠ docFilter
    · simp [findContentById, hskip, ih hrest]
    · simp [findContentById, hskip, hd, ih hrest]

end Provider

/-- **C10.** `GetDoc` with both id and topic empty returns the
"either id or topic must be provided" error; when id is nonempty the topic
argument is never consulted (the result is the same for any two topic
arguments), and an id matching no stored topic yields the id-not-found
error even when the topic argument would have matched some entry. -/
theorem c10_getdoc_arguments :
    (∀ (p : Provider.Provider) (doc : GoStr),
      Provider.GetDoc p [] doc [] = .error (gs "either id or topic must be provided")) ∧
    (∀ (p : Provider.Provider) (id doc t1 t2 : GoStr), id ≠ [] →
      Provider.GetDoc p id doc t1 = Provider.GetDoc p id doc t2) ∧
    (∀ (p : Provider.Provider) (id doc topic : GoStr), id ≠ [] →
      (∀ pr ∈ p.documentations, Provider.lookupAssoc pr.2.topics id = none) →
      Provider.GetDoc p id doc topic
        = .error (gs "documentation not found for id: " ++ id)) := by
  refine ⟨?_, ?_, ?_⟩
  · intro p doc
    rfl
  · intro p id doc t1 t2 h
    simp [Provider.GetDoc, h]
  · intro p id doc topic h hnone
    simp [Provider.GetDoc, h, Provider.findContentById_none p.documentations id doc hnone]

/-- Witness for C10: a corpus with one topic titled "Formatting"; an id
lookup for the absent id "zzz" fails with the id-not-found error even
though the topic argument "Formatting" matches that entry's title. -/
theorem c10_witness :
    Provider.GetDoc
      ⟨[(gs "go", ⟨gs "go", gs "Go", [],
          [(gs "fmt", ⟨gs "fmt", gs "Formatting", [], gs "body", [], gs "go"⟩)]⟩)]⟩
      (gs "zzz") [] (gs "Formatting")
      = .error (gs "documentation not found for id: " ++ gs "zzz") :=
  c10_getdoc_arguments.2.2
    ⟨[(gs "go", ⟨gs "go", gs "Go", [],
        [(gs "fmt", ⟨gs "fmt", gs "Formatting", [], gs "body", [], gs "go"⟩)]⟩)]⟩
    (gs "zzz") [] (gs "Formatting") (by decide) (by decide)

/-! # Claim C8 — corpus load metadata fallback -/

/-- **C8 counterexample.** The claim asserts a malformed `metadata.json`
falls back to a generated default and other directories still load.  In the
code only a *missing* file falls back; a malformed one makes
`loadDocumentation` return an error immediately: with directories
`a` (no metadata), `b` (malformed metadata), `c` (no metadata), the load
stops at `b` with an error and `c` is never loaded. -/
theorem c8_counterexample :
    Provider.loadDocumentation
      [⟨gs "a", true, .missing, []⟩, ⟨gs "b", true, .malformed, []⟩,
       ⟨gs "c", true, .missing, []⟩] []
    = (some (gs "failed to parse metadata for b"),
       [(gs "a", ⟨gs "a", gs "A", gs "Documentation for a", []⟩)]) := by
  rfl

/-- **C8 (amended).** A collection directory whose `metadata.json` is
*missing* falls back to a generated default Documentation (name = the
directory name, display name = the directory name with its first byte
uppercased, description = "Documentation for <name>") and its topics still
load; a *malformed* `metadata.json`, however, aborts `loadDocumentation`
with an error — collections processed earlier are kept (and `NewProvider`
merely logs the error), but directories after it are not loaded. -/
theorem c8_metadata_fallback (nameA nameB : GoStr) (tfA tfB : List Provider.TopicFile)
    (eC : Provider.DirEntry) :
    Provider.loadDocumentation
      [⟨nameA, true, .missing, tfA⟩, ⟨nameB, true, .malformed, tfB⟩, eC] []
    = (some (gs "failed to parse metadata for " ++ nameB),
       [(nameA,
         ⟨nameA, Provider.upperFirst nameA, gs "Documentation for " ++ nameA,
          Provider.loadTopics nameA tfA []⟩)]) := by
  simp [Provider.loadDocumentation, Provider.loadOneDir, Provider.defaultMetadata,
        Provider.updateAssoc]

/-- Witness for C8 at concrete directory entries (one loadable topic in the
missing-metadata collection). -/
theorem c8_witness :
    Provider.loadDocumentation
      [⟨gs "go", true, .missing,
         [.valid ⟨gs "fmt", gs "Fmt", [], gs "body", [], []⟩]⟩,
       ⟨gs "bad", true, .malformed, []⟩,
       ⟨gs "later", true, .missing, []⟩] []
    = (some (gs "failed to parse metadata for " ++ gs "bad"),
       [(gs "go",
         ⟨gs "go", Provider.upperFirst (gs "go"), gs "Documentation for " ++ gs "go",
          Provider.loadTopics (gs "go")
            [.valid ⟨gs "fmt", gs "Fmt", [], gs "body", [], []⟩] []⟩)]) :=
  c8_metadata_fallback (gs "go") (gs "bad")
    [.valid ⟨gs "fmt", gs "Fmt", [], gs "body", [], []⟩] []
    ⟨gs "later", true, .missing, []⟩

/-! # Claim C5 — search scoring, filtering of zero scores, descending sort -/

namespace Provider

theorem innerPass_bounds (l : List SearchResult) :
    ∀ x : SearchResult,
      x.score ≤ (innerPass x l).1.score ∧
      ∀ y ∈ (innerPass x l).2, y.score ≤ (innerPass x l).1.score := by
  induction l with
  | nil => intro x; exact ⟨le_refl _, by simp [innerPass]⟩
  | cons y ys ih =>
    intro x
    by_cases h : x.score < y.score
    · have hy := ih y
      simp only [innerPass, if_pos h]
      refine ⟨le_of_lt (lt_of_lt_of_le h hy.1), ?_⟩
      intro z hz
      rcases List.mem_cons.mp hz with rfl | hz'
      · exact le_of_lt (lt_of_lt_of_le h hy.1)
      · exact hy.2 z hz'
    · have hx := ih x
      simp only [innerPass, if_neg h]
      refine ⟨hx.1, ?_⟩
      intro z hz
      rcases List.mem_cons.mp hz with rfl | hz'
      · exact le_trans (le_of_not_lt h) hx.1
      · exact hx.2 z hz'

theorem innerPass_mem (l : List SearchResult) :
    ∀ x : SearchResult,
      (innerPass x l).1 ∈ x :: l ∧
      ∀ z ∈ (innerPass x l).2, z ∈ x :: l := by
  induction l with
  | nil => intro x; exact ⟨by simp [innerPass], by simp [innerPass]⟩
  | cons y ys ih =>
    intro x
    by_cases h : x.score < y.score
    · have hy := ih y
      constructor
      · simp only [innerPass, if_pos h]
        rcases List.mem_cons.mp hy.1 with h1 | h1 <;> simp [h1]
      · intro z hz
        simp only [innerPass, if_pos h] at hz
        rcases List.mem_cons.mp hz with rfl | hz'
        · simp
        · rcases List.mem_cons.mp (hy.2 z hz') with h1 | h1 <;> simp [h1]
    · have hx := ih x
      constructor
      · simp only [innerPass, if_neg h]
        rcases List.mem_cons.mp hx.1 with h1 | h1 <;> simp [h1]
      · intro z hz
        simp only [innerPass, if_neg h] at hz
        rcases List.mem_cons.mp hz with rfl | hz'
        · simp
        · rcases List.mem_cons.mp (hx.2 z hz') with h1 | h1 <;> simp [h1]

theorem sortPasses_subset :
    ∀ (n : Nat) (l : List SearchResult), ∀ z ∈ sortPasses n l, z ∈ l := by
  intro n
  induction n with
  | zero => intro l z hz; simpa [sortPasses] using hz
  | succ n ih =>
    intro l z hz
    cases l with
    | nil => simpa [sortPasses] using hz
    | cons x xs =>
      simp only [sortPasses] at hz
      rcases List.mem_cons.mp hz with rfl | hz'
      · exact (innerPass_mem xs x).1
      · exact (innerPass_mem xs x).2 z (ih _ z hz')

theorem sortPasses_sorted :
    ∀ (n : Nat) (l : List SearchResult), l.length ≤ n →
      List.Pairwise (fun a b : SearchResult => b.score ≤ a.score) (sortPasses n l) := by
  intro n
  induction n with
  | zero =>
    intro l hl
    have : l = [] := List.eq_nil_of_length_eq_zero (Nat.le_zero.mp hl)
    simp [this, sortPasses]
  | succ n ih =>
    intro l hl
    cases l with
    | nil => simp [sortPasses]
    | cons x xs =>
      simp only [sortPasses]
      have hlen : (innerPass x xs).2.length ≤ n := by
        rw [innerPass_length]
        simp only [List.length_cons] at hl
        omega
      refine List.pairwise_cons.mpr ⟨?_, ih _ hlen⟩
      intro z hz
      exact (innerPass_bounds xs x).2 z (sortPasses_subset n _ z hz)

theorem sortResults_subset (l : List SearchResult) :
    ∀ z ∈ sortResults l, z ∈ l :=
  sortPasses_subset l.length l

theorem sortResults_sorted (l : List SearchResult) :
    List.Pairwise (fun a b : SearchResult => b.score ≤ a.score) (sortResults l) :=
  sortPasses_sorted l.length l (le_refl _)

theorem foldl_score_keywords (q : GoStr) :
    ∀ (ks : List GoStr) (acc : Nat),
      ks.foldl (fun acc k => if strContains (strToLower k) q then acc + 5 else acc) acc
        = acc + 5 * (ks.filter (fun k => strContains (strToLower k) q)).length := by
  intro ks
  induction ks with
  | nil => intro acc; simp
  | cons k rest ih =>
    intro acc
    rw [List.foldl_cons, List.filter_cons]
    by_cases h : strContains (strToLower k) q = true
    · rw [if_pos h, if_pos h, ih]
      simp only [List.length_cons]
      omega
    · rw [if_neg h, if_neg h, ih]

theorem mem_searchResults_pos (q dfilter : GoStr) :
    ∀ (docs : List (GoStr × Documentation)) (acc : List SearchResult),
      (∀ r ∈ acc, 0 < r.score) →
      ∀ r ∈ docs.foldr
        (fun pr acc =>
          if dfilter ≠ [] ∧ pr.1 ≠ dfilter then acc
          else
            (pr.2.topics.filterMap (fun tp =>
              let score := calculateScore q tp.2
              if 0 < score then
                some ⟨tp.2.id, tp.2.title, tp.2.description, pr.1, score⟩
              else none)) ++ acc)
        acc, 0 < r.score := by
  intro docs
  induction docs with
  | nil => intro acc hacc r hr; exact hacc r hr
  | cons pr rest ih =>
    intro acc hacc r hr
    simp only [List.foldr_cons] at hr
    split at hr
    · exact ih acc hacc r hr
    · rcases List.mem_append.mp hr with hmem | hmem
      · obtain ⟨tp, _, htp⟩ := List.mem_filterMap.mp hmem
        split at htp
        · cases htp
          assumption
        · cases htp
      · exact ih acc hacc r hmem

end Provider

/-- **C5.** For every (already lowercased by `Search`) query and topic the
computed score equals: 10 for a title substring match, plus 5 per matching
keyword, plus 3 for a description match, plus 1 for a content match; in
particular a topic with a title match, exactly two keyword matches and no
description or content match scores exactly 20.  Every result `Search`
returns has a strictly positive score (zero-scoring topics are excluded),
and the returned list is sorted by descending score. -/
theorem c5_search_scoring :
    (∀ (q : GoStr) (t : Provider.Topic),
      Provider.calculateScore q t =
        (if strContains (strToLower t.title) q then 10 else 0)
        + 5 * (t.keywords.filter (fun k => strContains (strToLower k) q)).length
        + (if strContains (strToLower t.description) q then 3 else 0)
        + (if strContains (strToLower t.content) q then 1 else 0)) ∧
    (∀ (q : GoStr) (t : Provider.Topic),
      strContains (strToLower t.title) q = true →
      (t.keywords.filter (fun k => strContains (strToLower k) q)).length = 2 →
      strContains (strToLower t.description) q = false →
      strContains (strToLower t.content) q = false →
      Provider.calculateScore q t = 20) ∧
    (∀ (p : Provider.Provider) (query dfilter : GoStr),
      ∀ r ∈ Provider.Search p query dfilter, 0 < r.score) ∧
    (∀ (p : Provider.Provider) (query dfilter : GoStr),
      List.Pairwise (fun a b : Provider.SearchResult => b.score ≤ a.score)
        (Provider.Search p query dfilter)) := by
  have hformula : ∀ (q : GoStr) (t : Provider.Topic),
      Provider.calculateScore q t =
        (if strContains (strToLower t.title) q then 10 else 0)
        + 5 * (t.keywords.filter (fun k => strContains (strToLower k) q)).length
        + (if strContains (strToLower t.description) q then 3 else 0)
        + (if strContains (strToLower t.content) q then 1 else 0) := by
    intro q t
    simp only [Provider.calculateScore]
    rw [Provider.foldl_score_keywords]
    split_ifs <;> omega
  refine ⟨hformula, ?_, ?_, ?_⟩
  · intro q t h1 h2 h3 h4
    rw [hformula, h2, h1, h3, h4]
    simp
  · intro p query dfilter r hr
    unfold Provider.Search at hr
    exact Provider.mem_searchResults_pos (strToLower query) dfilter p.documentations []
      (by simp) r (Provider.sortResults_subset _ r hr)
  · intro p query dfilter
    unfold Provider.Search
    exact Provider.sortResults_sorted _

/-- Witness for C5: a topic whose title matches "buf" with exactly two
matching keywords and no description or content match scores exactly 20,
and a concrete search returns only positive scores in descending order. -/
theorem c5_witness :
    Provider.calculateScore (gs "buf")
      ⟨gs "t1", gs "Buffer tricks", gs "other", gs "other", [gs "buffer", gs "bufio"], []⟩
      = 20 ∧
    (∀ r ∈ Provider.Search
        ⟨[(gs "go", ⟨gs "go", gs "Go", [],
            [(gs "t1", ⟨gs "t1", gs "Buffer tricks", gs "other", gs "other",
                [gs "buffer", gs "bufio"], []⟩)]⟩)]⟩
        (gs "BUF") [], 0 < r.score) :=
  ⟨c5_search_scoring.2.1 (gs "buf")
      ⟨gs "t1", gs "Buffer tricks", gs "other", gs "other", [gs "buffer", gs "bufio"], []⟩
      (by decide) (by decide) (by decide) (by decide),
   c5_search_scoring.2.2.1
      ⟨[(gs "go", ⟨gs "go", gs "Go", [],
          [(gs "t1", ⟨gs "t1", gs "Buffer tricks", gs "other", gs "other",
              [gs "buffer", gs "bufio"], []⟩)]⟩)]⟩
      (gs "BUF") []⟩

/-! # Codec helper lemmas: occurrences of the `---` delimiter -/

theorem startsTriple_eq_true (s : GoStr) :
    startsTriple s = true ↔ ∃ t, s = '-' :: '-' :: '-' :: t := by
  match s with
  | [] => simp [startsTriple]
  | [c] => simp [startsTriple]
  | [c, d] => simp [startsTriple]
  | c1 :: c2 :: c3 :: t =>
    simp only [startsTriple, Bool.and_eq_true, beq_iff_eq]
    constructor
    · rintro ⟨⟨h1, h2⟩, h3⟩
      exact ⟨t, by rw [h1, h2, h3]⟩
    · rintro ⟨t', ht⟩
      injection ht with h1 ht
      injection ht with h2 ht
      injection ht with h3 ht
      exact ⟨⟨h1, h2⟩, h3⟩

theorem startsTriple_false_of_head (c : Char) (s : GoStr) (h : c ≠ '-') :
    startsTriple (c :: s) = false := by
  by_contra hcon
  rw [Bool.not_eq_false, startsTriple_eq_true] at hcon
  obtain ⟨t, ht⟩ := hcon
  injection ht with h1 _
  exact h h1

theorem hasTripleDash_iff (s : GoStr) :
    hasTripleDash s = true ↔ ∃ u v, s = u ++ '-' :: '-' :: '-' :: v := by
  induction s with
  | nil =>
    simp only [hasTripleDash]
    constructor
    · intro h; cases h
    · rintro ⟨u, v, huv⟩
      exact absurd huv.symm (by simp)
  | cons c rest ih =>
    simp only [hasTripleDash, Bool.or_eq_true]
    constructor
    · rintro (h | h)
      · obtain ⟨t, ht⟩ := (startsTriple_eq_true _).mp h
        exact ⟨[], t, by simp [ht]⟩
      · obtain ⟨u, v, huv⟩ := ih.mp h
        exact ⟨c :: u, v, by simp [huv]⟩
    · rintro ⟨u, v, huv⟩
      cases u with
      | nil =>
        left
        simp only [List.nil_append] at huv
        rw [(startsTriple_eq_true _).mpr ⟨v, huv⟩]
      | cons d u' =>
        right
        injection huv with h1 h2
        exact ih.mpr ⟨u', v, h2⟩

/-- No `---` across an append when the right side does not begin with `-`. -/
theorem hasTripleDash_append_head (x y : GoStr) (hx : hasTripleDash x = false)
    (hy : hasTripleDash y = false) (hhead : ∀ t, y ≠ '-' :: t) :
    hasTripleDash (x ++ y) = false := by
  by_contra h
  rw [Bool.not_eq_false, hasTripleDash_iff] at h
  obtain ⟨u, v, huv⟩ := h
  rcases List.append_eq_append_iff.mp huv with ⟨a', hu, hy'⟩ | ⟨c', hx', hy'⟩
  · exact absurd ((hasTripleDash_iff y).mpr ⟨a', v, hy'⟩) (by simp [hy])
  · rcases c' with _ | ⟨e1, c'⟩
    · simp only [List.nil_append] at hy'
      exact hhead _ hy'.symm
    · injection hy' with he1 hy'
      rcases c' with _ | ⟨e2, c'⟩
      · exact hhead _ (by simpa using hy'.symm)
      · injection hy' with he2 hy'
        rcases c' with _ | ⟨e3, c'⟩
        · exact hhead _ (by simpa using hy'.symm)
        · injection hy' with he3 hy'
          subst he1
          subst he2
          subst he3
          exact absurd ((hasTripleDash_iff x).mpr ⟨u, c', hx'⟩) (by simp [hx])

/-- No `---` across an append when the left side does not end with `-`. -/
theorem hasTripleDash_append_last (x y : GoStr) (hx : hasTripleDash x = false)
    (hy : hasTripleDash y = false) (hlast : x.getLast? ≠ some '-') :
    hasTripleDash (x ++ y) = false := by
  by_contra h
  rw [Bool.not_eq_false, hasTripleDash_iff] at h
  obtain ⟨u, v, huv⟩ := h
  rcases List.append_eq_append_iff.mp huv with ⟨a', hu, hy'⟩ | ⟨c', hx', hy'⟩
  · exact absurd ((hasTripleDash_iff y).mpr ⟨a', v, hy'⟩) (by simp [hy])
  · rcases c' with _ | ⟨e1, c'⟩
    · simp only [List.nil_append] at hy'
      exact absurd ((hasTripleDash_iff y).mpr ⟨[], v, hy'.symm⟩) (by simp [hy])
    · injection hy' with he1 hy'
      rcases c' with _ | ⟨e2, c'⟩
      · subst he1
        rw [hx'] at hlast
        exact hlast (List.getLast?_concat u)
      · injection hy' with he2 hy'
        rcases c' with _ | ⟨e3, c'⟩
        · subst he1
          subst he2
          rw [hx'] at hlast
          refine hlast ?_
          rw [show ('-' :: ['-'] : GoStr) = ['-'] ++ ['-'] from rfl,
              ← List.append_assoc]
          exact List.getLast?_concat _
        · injection hy' with he3 hy'
          subst he1
          subst he2
          subst he3
          exact absurd ((hasTripleDash_iff x).mpr ⟨u, c', hx'⟩) (by simp [hx])

/-- Splitting at `---`: when `a` contains no `---` occurrence even jointly
with two following dashes, `splitDash` splits exactly at the delimiter. -/
theorem splitDash_position (b : GoStr) :
    ∀ a : GoStr, hasTripleDash (a ++ ['-', '-']) = false →
      splitDash (a ++ '-' :: '-' :: '-' :: b) = some (a, b) := by
  intro a
  induction a with
  | nil =>
    intro _
    simp [splitDash, startsTriple]
  | cons c a' ih =>
    intro h
    have hna : hasTripleDash (a' ++ ['-', '-']) = false := by
      have := h
      simp only [List.cons_append, hasTripleDash, Bool.or_eq_false_iff] at this
      exact this.2
    have hns : startsTriple (c :: (a' ++ '-' :: '-' :: '-' :: b)) = false := by
      by_contra hcon
      rw [Bool.not_eq_false, startsTriple_eq_true] at hcon
      obtain ⟨t, ht⟩ := hcon
      injection ht with h1 ht
      subst h1
      have : hasTripleDash (('-' :: a') ++ ['-', '-']) = true := by
        rcases a' with _ | ⟨d, a''⟩
        · decide
        · injection ht with h2 ht
          subst h2
          rcases a'' with _ | ⟨e, a'''⟩
          · decide
          · injection ht with h3 _
            subst h3
            rw [hasTripleDash_iff]
            exact ⟨[], a''' ++ ['-', '-'], by simp⟩
      rw [this] at h
      cases h
    rw [List.cons_append, splitDash, if_neg (by simp [hns]), ih hna]

/-! # Codec helper lemmas: header lines, quoting, line splitting -/

/-- One header line as written by the codec
(`fmt.Sprintf("%s: \"%s\"\n", key, value)` without the trailing newline). -/
def kvBody (key val : GoStr) : GoStr := key ++ ':' :: ' ' :: '"' :: (val ++ ['"'])

theorem chunks_noTriple :
    ∀ chunks : List GoStr,
      (∀ c ∈ chunks, hasTripleDash c = false ∧ (c = [] ∨ c.getLast? = some '\n')) →
      hasTripleDash (chunks.foldr (· ++ ·) []) = false ∧
      (chunks.foldr (· ++ ·) []).getLast? ≠ some '-' := by
  intro chunks
  induction chunks with
  | nil => intro _; exact ⟨rfl, by simp⟩
  | cons c cs ih =>
    intro h
    have hc := h c (by simp)
    have hcs := ih (fun d hd => h d (by simp [hd]))
    have hlastc : c.getLast? ≠ some '-' := by
      rcases hc.2 with hnil | hnl
      · simp [hnil]
      · rw [hnl]; decide
    constructor
    · exact hasTripleDash_append_last c _ hc.1 hcs.1 hlastc
    · by_cases hrest : cs.foldr (· ++ ·) [] = []
      · simp only [List.foldr_cons, hrest, List.append_nil]
        exact hlastc
      · simp only [List.foldr_cons]
        rw [List.getLast?_append_of_ne_nil _ hrest]
        exact hcs.2

theorem splitLines_append_line (rest : GoStr) :
    ∀ u : GoStr, '\n' ∉ u →
      splitLines (u ++ '\n' :: rest) = u :: splitLines rest := by
  intro u
  induction u with
  | nil =>
    intro _
    simp [splitLines]
  | cons c u' ih =>
    intro hu
    have hc : ¬ c = '\n' := fun hc => hu (by simp [hc])
    have hu' : '\n' ∉ u' := fun hm => hu (by simp [hm])
    rw [List.cons_append, splitLines.eq_def]
    simp only [if_neg hc]
    rw [ih hu']

theorem splitOnceChar_position (sep : Char) (b : GoStr) :
    ∀ a : GoStr, sep ∉ a → splitOnceChar sep (a ++ sep :: b) = some (a, b) := by
  intro a
  induction a with
  | nil =>
    intro _
    simp [splitOnceChar]
  | cons c a' ih =>
    intro ha
    have hc : ¬ c = sep := fun hc => ha (by simp [hc])
    have ha' : sep ∉ a' := fun hm => ha (by simp [hm])
    rw [List.cons_append, splitOnceChar.eq_def]
    simp only [if_neg hc]
    rw [ih ha']

theorem escapeQuotes_eq_self : ∀ v : GoStr, '"' ∉ v → escapeQuotes v = v := by
  intro v
  induction v with
  | nil => intro _; rfl
  | cons c v' ih =>
    intro h
    have hc : ¬ c = '"' := fun hc => h (by simp [hc])
    have hv' : '"' ∉ v' := fun hm => h (by simp [hm])
    rw [escapeQuotes.eq_def]
    simp only [if_neg hc]
    rw [ih hv']

theorem nl_not_mem_escapeQuotes : ∀ v : GoStr, '\n' ∉ v → '\n' ∉ escapeQuotes v := by
  intro v
  induction v with
  | nil => intro _; simp [escapeQuotes]
  | cons c v' ih =>
    intro h
    have hc : c ≠ '\n' := fun hc => h (by simp [hc])
    have hv' : '\n' ∉ v' := fun hm => h (by simp [hm])
    by_cases hq : c = '"'
    · simp only [escapeQuotes, if_pos hq, List.mem_cons]
      push_neg
      exact ⟨by decide, by decide, ih hv'⟩
    · simp only [escapeQuotes, if_neg hq, List.mem_cons]
      push_neg
      exact ⟨Ne.symm hc, ih hv'⟩

theorem escapeQuotes_head_dash (v u : GoStr) (h : escapeQuotes v = '-' :: u) :
    ∃ u', v = '-' :: u' ∧ escapeQuotes u' = u := by
  cases v with
  | nil => cases h
  | cons c v' =>
    simp only [escapeQuotes] at h
    by_cases hq : c = '"'
    · rw [if_pos hq] at h
      injection h with h1 _
      cases h1
    · rw [if_neg hq] at h
      injection h with h1 h2
      exact ⟨v', by rw [h1], h2⟩

theorem hasTripleDash_escapeQuotes : ∀ v : GoStr, hasTripleDash v = false →
    hasTripleDash (escapeQuotes v) = false := by
  intro v
  induction v with
  | nil => intro _; rfl
  | cons c v' ih =>
    intro h
    rw [hasTripleDash, Bool.or_eq_false_iff] at h
    obtain ⟨h1, h2⟩ := h
    simp only [escapeQuotes]
    by_cases hq : c = '"'
    · rw [if_pos hq]
      rw [hasTripleDash, Bool.or_eq_false_iff]
      refine ⟨startsTriple_false_of_head _ _ (by decide), ?_⟩
      rw [hasTripleDash, Bool.or_eq_false_iff]
      exact ⟨startsTriple_false_of_head _ _ (by decide), ih h2⟩
    · rw [if_neg hq]
      rw [hasTripleDash, Bool.or_eq_false_iff]
      refine ⟨?_, ih h2⟩
      by_contra hcon
      rw [Bool.not_eq_false, startsTriple_eq_true] at hcon
      obtain ⟨t, ht⟩ := hcon
      injection ht with hc ht
      obtain ⟨u1, hv1, he1⟩ := escapeQuotes_head_dash v' _ ht
      obtain ⟨u2, hv2, _⟩ := escapeQuotes_head_dash u1 _ he1
      rw [(startsTriple_eq_true _).mpr ⟨u2, by rw [hc, hv1, hv2]⟩] at h1
      cases h1

theorem unquoteBody_escape (rem : GoStr) :
    ∀ v : GoStr, '\\' ∉ v →
      unquoteBody (escapeQuotes v ++ '"' :: rem) = some (v, rem) := by
  intro v
  induction v with
  | nil =>
    intro _
    rw [show escapeQuotes [] = [] from rfl, List.nil_append, unquoteBody.eq_def]
    simp
  | cons c v' ih =>
    intro h
    have hc : c ≠ '\\' := fun hc => h (by simp [hc])
    have hv' : '\\' ∉ v' := fun hm => h (by simp [hm])
    simp only [escapeQuotes]
    by_cases hq : c = '"'
    · rw [if_pos hq]
      rw [List.cons_append, List.cons_append, unquoteBody.eq_def]
      simp only [if_pos rfl]
      rw [ih hv']
      simp [unescapeChar, hq]
    · rw [if_neg hq]
      rw [List.cons_append, unquoteBody.eq_def]
      simp only [if_neg hc, if_neg hq]
      rw [ih hv']

theorem kvBody_noNL (key val : GoStr) (hk : '\n' ∉ key) (hv : '\n' ∉ val) :
    '\n' ∉ kvBody key val := by
  unfold kvBody
  intro hmem
  rcases List.mem_append.mp hmem with h | h
  · exact hk h
  · rcases List.mem_cons.mp h with h | h
    · cases h
    · rcases List.mem_cons.mp h with h | h
      · cases h
      · rcases List.mem_cons.mp h with h | h
        · cases h
        · rcases List.mem_append.mp h with h | h
          · exact hv h
          · rcases List.mem_cons.mp h with h | h
            · cases h
            · cases h

theorem kvBody_noTriple (key val : GoStr) (hk : hasTripleDash key = false)
    (hv : hasTripleDash val = false) : hasTripleDash (kvBody key val) = false := by
  unfold kvBody
  refine hasTripleDash_append_head key _ hk ?_ ?_
  · rw [hasTripleDash, Bool.or_eq_false_iff]
    refine ⟨startsTriple_false_of_head _ _ (by decide), ?_⟩
    rw [hasTripleDash, Bool.or_eq_false_iff]
    refine ⟨startsTriple_false_of_head _ _ (by decide), ?_⟩
    rw [hasTripleDash, Bool.or_eq_false_iff]
    refine ⟨startsTriple_false_of_head _ _ (by decide), ?_⟩
    refine hasTripleDash_append_head val _ hv (by decide) ?_
    intro t ht
    injection ht with h1 _
    exact absurd h1 (by decide)
  · intro t ht
    injection ht with h1 _
    exact absurd h1 (by decide)

theorem parseYamlLine_kvBody (key v : GoStr) (hkey : ':' ∉ key) (hv : '\\' ∉ v) :
    parseYamlLine (kvBody key (escapeQuotes v)) = some (some (key, v)) := by
  have hsplit : splitOnceChar ':' (kvBody key (escapeQuotes v))
      = some (key, ' ' :: '"' :: (escapeQuotes v ++ ['"'])) :=
    splitOnceChar_position ':' _ key hkey
  have hcolon : isSpaceChar ':' = false := by decide
  have hall : (kvBody key (escapeQuotes v)).all isSpaceChar = false := by
    unfold kvBody
    rw [List.all_append, List.all_cons, hcolon]
    simp
  rw [parseYamlLine, hall, hsplit]
  simp only [Bool.false_eq_true, if_false]
  rw [List.dropWhile_cons, if_pos (by decide), List.dropWhile_cons, if_neg (by decide)]
  simp only [if_pos rfl]
  rw [show escapeQuotes v ++ ['"'] = escapeQuotes v ++ '"' :: [] from rfl,
      unquoteBody_escape [] v hv]
  rfl

theorem collectPairs_blank (l : GoStr) (ls : List GoStr) (h : parseYamlLine l = some none) :
    collectPairs (l :: ls) = collectPairs ls := by
  cases hcp : collectPairs ls <;> simp [collectPairs, h, hcp]

theorem collectPairs_kv (l : GoStr) (ls : List GoStr) (kv : GoStr × GoStr)
    (h : parseYamlLine l = some (some kv)) :
    collectPairs (l :: ls) = (collectPairs ls).map (kv :: ·) := by
  cases hcp : collectPairs ls <;> simp [collectPairs, h, hcp]

theorem parseYamlLine_blank : parseYamlLine [] = some none := by decide

theorem trimSpace_double_nl (d : GoStr) : trimSpace ('\n' :: '\n' :: d) = trimSpace d := by
  unfold trimSpace
  rw [List.dropWhile_cons, if_pos (by decide), List.dropWhile_cons, if_pos (by decide)]

/-! # The encoded file's structure -/

/-- The header line bodies written by the codec, in order; the leading empty
body accounts for the newline that ends the opening delimiter line. -/
def headerBodies (info : LibraryInfo) : List GoStr :=
  [[], kvBody (gs "importPath") info.importPath]
  ++ (if info.version = [] then [] else [kvBody (gs "version") info.version])
  ++ (if info.synopsis = [] then []
      else [kvBody (gs "synopsis") (escapeQuotes info.synopsis)])
  ++ (if info.repository = [] then [] else [kvBody (gs "repository") info.repository])
  ++ (if info.license = [] then [] else [kvBody (gs "license") info.license])

/-- Interleave line bodies with newlines. -/
def stitch (bodies : List GoStr) : GoStr :=
  bodies.foldr (fun u acc => u ++ '\n' :: acc) []

theorem stitch_eq_chunks (bodies : List GoStr) :
    stitch bodies = (bodies.map (· ++ ['\n'])).foldr (· ++ ·) [] := by
  induction bodies with
  | nil => rfl
  | cons b bs ih =>
    simp only [stitch, List.foldr_cons, List.map_cons] at ih ⊢
    rw [ih, List.append_assoc]
    rfl

theorem splitLines_stitch :
    ∀ bodies : List GoStr, (∀ u ∈ bodies, '\n' ∉ u) →
      splitLines (stitch bodies) = bodies ++ [[]] := by
  intro bodies
  induction bodies with
  | nil => intro _; rfl
  | cons b bs ih =>
    intro h
    show splitLines (b ++ '\n' :: stitch bs) = (b :: bs) ++ [[]]
    rw [splitLines_append_line _ b (h b (by simp)),
        ih (fun u hu => h u (by simp [hu]))]
    rfl

/-- The restriction under which a plainly written header value round-trips:
no backslash, no double quote, no newline, no `---` occurrence. -/
abbrev plainValue (s : GoStr) : Prop :=
  '\\' ∉ s ∧ '"' ∉ s ∧ '\n' ∉ s ∧ hasTripleDash s = false

/-- The synopsis restriction (double quotes are escaped by the writer, so
they are allowed). -/
abbrev synValue (s : GoStr) : Prop :=
  '\\' ∉ s ∧ '\n' ∉ s ∧ hasTripleDash s = false

theorem mem_headerBodies (info : LibraryInfo) (u : GoStr) (hu : u ∈ headerBodies info) :
    u = [] ∨ u = kvBody (gs "importPath") info.importPath
    ∨ u = kvBody (gs "version") info.version
    ∨ u = kvBody (gs "synopsis") (escapeQuotes info.synopsis)
    ∨ u = kvBody (gs "repository") info.repository
    ∨ u = kvBody (gs "license") info.license := by
  unfold headerBodies at hu
  split_ifs at hu <;>
    simp only [List.mem_append, List.mem_cons, List.mem_singleton,
      List.not_mem_nil, or_false, false_or] at hu <;>
    tauto

theorem headerBodies_ok (info : LibraryInfo)
    (hip : plainValue info.importPath) (hver : plainValue info.version)
    (hsyn : synValue info.synopsis) (hrep : plainValue info.repository)
    (hlic : plainValue info.license) :
    (∀ u ∈ headerBodies info, '\n' ∉ u) ∧
    (∀ c ∈ (headerBodies info).map (· ++ ['\n']),
      hasTripleDash c = false ∧ (c = [] ∨ c.getLast? = some '\n')) := by
  have hbody : ∀ u ∈ headerBodies info, '\n' ∉ u ∧ hasTripleDash u = false := by
    intro u hu
    rcases mem_headerBodies info u hu with h | h | h | h | h | h <;> subst h
    · exact ⟨by simp, rfl⟩
    · exact ⟨kvBody_noNL _ _ (by decide) hip.2.2.1,
        kvBody_noTriple _ _ (by decide) hip.2.2.2⟩
    · exact ⟨kvBody_noNL _ _ (by decide) hver.2.2.1,
        kvBody_noTriple _ _ (by decide) hver.2.2.2⟩
    · exact ⟨kvBody_noNL _ _ (by decide) (nl_not_mem_escapeQuotes _ hsyn.2.1),
        kvBody_noTriple _ _ (by decide) (hasTripleDash_escapeQuotes _ hsyn.2.2)⟩
    · exact ⟨kvBody_noNL _ _ (by decide) hrep.2.2.1,
        kvBody_noTriple _ _ (by decide) hrep.2.2.2⟩
    · exact ⟨kvBody_noNL _ _ (by decide) hlic.2.2.1,
        kvBody_noTriple _ _ (by decide) hlic.2.2.2⟩
  constructor
  · exact fun u hu => (hbody u hu).1
  · intro c hc
    obtain ⟨u, hu, rfl⟩ := List.mem_map.mp hc
    constructor
    · refine hasTripleDash_append_head u _ (hbody u hu).2 (by decide) ?_
      intro t ht
      injection ht with h1 _
      exact absurd h1 (by decide)
    · right
      exact List.getLast?_concat u

theorem splitDash_triple (X : GoStr) : splitDash ('-' :: '-' :: '-' :: X) = some ([], X) := by
  simp [splitDash, startsTriple]

/-- The shape of the written file: opening delimiter, stitched header
lines, closing delimiter, blank line, body. -/
theorem saveLibraryInfo_decomposed (info : LibraryInfo) :
    saveLibraryInfoAsMarkdown info
      = '-' :: '-' :: '-' ::
          (stitch (headerBodies info)
            ++ '-' :: '-' :: '-' :: '\n' :: '\n' :: info.description) := by
  unfold saveLibraryInfoAsMarkdown headerBodies stitch kvBody
  split_ifs <;> simp [gs, List.append_assoc]

/-- `strings.SplitN` of the written file yields exactly the three parts. -/
theorem splitN3_encode (info : LibraryInfo)
    (hip : plainValue info.importPath) (hver : plainValue info.version)
    (hsyn : synValue info.synopsis) (hrep : plainValue info.repository)
    (hlic : plainValue info.license) :
    splitN3 (saveLibraryInfoAsMarkdown info)
      = [[], stitch (headerBodies info), '\n' :: '\n' :: info.description] := by
  have hok := headerBodies_ok info hip hver hsyn hrep hlic
  have hchunks := chunks_noTriple ((headerBodies info).map (· ++ ['\n'])) hok.2
  rw [← stitch_eq_chunks] at hchunks
  have hA2 : hasTripleDash (stitch (headerBodies info) ++ ['-', '-']) = false :=
    hasTripleDash_append_last _ _ hchunks.1 (by decide) hchunks.2
  rw [saveLibraryInfo_decomposed]
  unfold splitN3
  rw [splitDash_triple]
  simp only [splitDash_position _ _ hA2]

/-- Parsing the stitched header recovers the five fields. -/
theorem parseLibMeta_header (info : LibraryInfo)
    (hip : plainValue info.importPath) (hver : plainValue info.version)
    (hsyn : synValue info.synopsis) (hrep : plainValue info.repository)
    (hlic : plainValue info.license) :
    parseLibMeta (stitch (headerBodies info))
      = some ⟨info.importPath, info.version, info.synopsis,
              info.repository, info.license⟩ := by
  have hok := headerBodies_ok info hip hver hsyn hrep hlic
  have hp1 := parseYamlLine_kvBody (gs "importPath") info.importPath (by decide) hip.1
  rw [escapeQuotes_eq_self info.importPath hip.2.1] at hp1
  have hp2 := parseYamlLine_kvBody (gs "version") info.version (by decide) hver.1
  rw [escapeQuotes_eq_self info.version hver.2.1] at hp2
  have hp3 := parseYamlLine_kvBody (gs "synopsis") info.synopsis (by decide) hsyn.1
  have hp4 := parseYamlLine_kvBody (gs "repository") info.repository (by decide) hrep.1
  rw [escapeQuotes_eq_self info.repository hrep.2.1] at hp4
  have hp5 := parseYamlLine_kvBody (gs "license") info.license (by decide) hlic.1
  rw [escapeQuotes_eq_self info.license hlic.2.1] at hp5
  have scpB : ∀ ls, collectPairs ([] :: ls) = collectPairs ls :=
    fun ls => collectPairs_blank [] ls parseYamlLine_blank
  have scp1 : ∀ ls, collectPairs (kvBody (gs "importPath") info.importPath :: ls)
      = (collectPairs ls).map ((gs "importPath", info.importPath) :: ·) :=
    fun ls => collectPairs_kv _ ls _ hp1
  have scp2 : ∀ ls, collectPairs (kvBody (gs "version") info.version :: ls)
      = (collectPairs ls).map ((gs "version", info.version) :: ·) :=
    fun ls => collectPairs_kv _ ls _ hp2
  have scp3 : ∀ ls, collectPairs (kvBody (gs "synopsis") (escapeQuotes info.synopsis) :: ls)
      = (collectPairs ls).map ((gs "synopsis", info.synopsis) :: ·) :=
    fun ls => collectPairs_kv _ ls _ hp3
  have scp4 : ∀ ls, collectPairs (kvBody (gs "repository") info.repository :: ls)
      = (collectPairs ls).map ((gs "repository", info.repository) :: ·) :=
    fun ls => collectPairs_kv _ ls _ hp4
  have scp5 : ∀ ls, collectPairs (kvBody (gs "license") info.license :: ls)
      = (collectPairs ls).map ((gs "license", info.license) :: ·) :=
    fun ls => collectPairs_kv _ ls _ hp5
  have hnil : collectPairs [] = some [] := rfl
  have n21 : gs "version" ≠ gs "importPath" := by decide
  have n31 : gs "synopsis" ≠ gs "importPath" := by decide
  have n41 : gs "repository" ≠ gs "importPath" := by decide
  have n51 : gs "license" ≠ gs "importPath" := by decide
  have n12 : gs "importPath" ≠ gs "version" := by decide
  have n32 : gs "synopsis" ≠ gs "version" := by decide
  have n42 : gs "repository" ≠ gs "version" := by decide
  have n52 : gs "license" ≠ gs "version" := by decide
  have n13 : gs "importPath" ≠ gs "synopsis" := by decide
  have n23 : gs "version" ≠ gs "synopsis" := by decide
  have n43 : gs "repository" ≠ gs "synopsis" := by decide
  have n53 : gs "license" ≠ gs "synopsis" := by decide
  have n14 : gs "importPath" ≠ gs "repository" := by decide
  have n24 : gs "version" ≠ gs "repository" := by decide
  have n34 : gs "synopsis" ≠ gs "repository" := by decide
  have n54 : gs "license" ≠ gs "repository" := by decide
  have n15 : gs "importPath" ≠ gs "license" := by decide
  have n25 : gs "version" ≠ gs "license" := by decide
  have n35 : gs "synopsis" ≠ gs "license" := by decide
  have n45 : gs "repository" ≠ gs "license" := by decide
  unfold parseLibMeta
  rw [splitLines_stitch (headerBodies info) hok.1]
  unfold headerBodies
  split_ifs <;>
    simp [scpB, scp1, scp2, scp3, scp4, scp5, hnil, lookupStr,
      n21, n31, n41, n51, n12, n32, n42, n52, n13, n23, n43, n53,
      n14, n24, n34, n54, n15, n25, n35, n45, *]

/-- Round trip of the content codec under the header-value restrictions and
a trim-invariant description. -/
theorem decode_encode (info : LibraryInfo)
    (hip : plainValue info.importPath) (hver : plainValue info.version)
    (hsyn : synValue info.synopsis) (hrep : plainValue info.repository)
    (hlic : plainValue info.license)
    (htrim : trimSpace info.description = info.description) :
    loadLibraryInfoFromMarkdown (saveLibraryInfoAsMarkdown info) = .ok info := by
  unfold loadLibraryInfoFromMarkdown
  rw [splitN3_encode info hip hver hsyn hrep hlic]
  rw [if_neg (by simp)]
  simp only [List.getElem?_cons_succ, List.getElem?_cons_zero, Option.getD_some,
    List.get?_eq_getElem?, List.getD]
  simp only [parseLibMeta_header info hip hver hsyn hrep hlic]
  rw [trimSpace_double_nl, htrim]

/-! # Claim C3 — codec round trip -/

/-- The claim's restriction: no string field contains the delimiter
sequence `---`. -/
abbrev fieldsDelimFree (info : LibraryInfo) : Prop :=
  hasTripleDash info.importPath = false ∧ hasTripleDash info.version = false ∧
  hasTripleDash info.synopsis = false ∧ hasTripleDash info.description = false ∧
  hasTripleDash info.repository = false ∧ hasTripleDash info.license = false

/-- **C3 counterexample.** The round trip fails on a delimiter-free record
whose description carries a trailing space: the loader applies
`strings.TrimSpace` to the body, so `"x "` comes back as `"x"`. -/
theorem c3_counterexample :
    fieldsDelimFree ⟨gs "fmt", [], [], gs "x ", [], []⟩ ∧
    loadLibraryInfoFromMarkdown
        (saveLibraryInfoAsMarkdown ⟨gs "fmt", [], [], gs "x ", [], []⟩)
      ≠ .ok ⟨gs "fmt", [], [], gs "x ", [], []⟩ := by
  constructor
  · decide
  · decide

/-- **C3 (amended).** `loadLibraryInfoFromMarkdown ∘ saveLibraryInfoAsMarkdown`
is the identity on records whose header fields (importPath, version,
synopsis, repository, license) contain no `---`, no newline, no backslash
and — except for the synopsis, whose quotes the writer escapes — no double
quote, and whose description is invariant under `strings.TrimSpace`.
(The loader trims the body, so descriptions with leading or trailing
whitespace do not round-trip; header values that break the single-line
`key: "value"` quoting do not either.) -/
theorem c3_roundtrip (info : LibraryInfo)
    (hip : plainValue info.importPath) (hver : plainValue info.version)
    (hsyn : synValue info.synopsis) (hrep : plainValue info.repository)
    (hlic : plainValue info.license)
    (htrim : trimSpace info.description = info.description) :
    loadLibraryInfoFromMarkdown (saveLibraryInfoAsMarkdown info) = .ok info :=
  decode_encode info hip hver hsyn hrep hlic htrim

/-- Witness for C3 on a record exercising the quote escaping and a
delimiter occurrence inside the body (the body section is read verbatim up
to trimming, so `---` inside it is harmless). -/
theorem c3_witness :
    loadLibraryInfoFromMarkdown (saveLibraryInfoAsMarkdown
      ⟨gs "github.com/user/repo", gs "v1.2.3", gs "say \"hi\"",
       gs "line one\n---\nline two", gs "https://github.com/user/repo",
       gs "MIT"⟩)
    = .ok ⟨gs "github.com/user/repo", gs "v1.2.3", gs "say \"hi\"",
           gs "line one\n---\nline two", gs "https://github.com/user/repo",
           gs "MIT"⟩ :=
  c3_roundtrip _ (by decide) (by decide) (by decide) (by decide) (by decide) (by decide)

/-! # Orchestrator helper lemmas -/

theorem getLatestVersion_base (query : GoStr → Option GoStr) (p b : GoStr)
    (hb : query p = some b) (hbne : b ≠ [])
    (hall : ∀ m, 2 ≤ m → m ≤ 10 → query (p ++ gs "/v" ++ natStr m) = none) :
    getLatestVersion query p = .ok b := by
  have hnone : List.foldl (probeStep query p)
      (match query p with
       | some v => (v, p)
       | none => ([], []))
      (List.range' 2 9) = (b, p) := by
    rw [hb]
    apply foldl_probeStep_none
    intro m hm
    obtain ⟨i, hi, rfl⟩ := List.mem_range'.mp hm
    exact hall _ (by omega) (by omega)
  simp only [getLatestVersion, hnone]
  simp [hbne]

theorem strContains_single (c : Char) : ∀ s : GoStr, strContains s [c] = true ↔ c ∈ s := by
  intro s
  induction s with
  | nil => simp [strContains]
  | cons d rest ih =>
    rw [strContains]
    by_cases h : c = d
    · subst h
      simp [List.isPrefixOf]
    · have : [c].isPrefixOf (d :: rest) = false := by
        simp [List.isPrefixOf, h]
      simp [this, ih, h]

theorem loadLibraryInfoFS_found (env : GoFetcherEnv) (st : FetchState) (path : GoStr)
    (content : GoStr) (t : Nat)
    (hlook : lookupFile st.files path = some (content, t))
    (hfresh : env.ttl = 0 ∨ st.now - t ≤ env.ttl) :
    loadLibraryInfoFS env st path = loadLibraryInfoFromMarkdown content := by
  have hexp : (Cache.Manager.mk env.cacheDir env.ttl).IsExpired st.now st.files path
      = false := by
    unfold Cache.Manager.IsExpired
    rcases hfresh with h0 | hle
    · simp [h0]
    · simp only [hlook]
      split_ifs with h
      · rfl
      · simp
        omega
  simp [loadLibraryInfoFS, hexp, hlook]

theorem loadLibraryInfoFS_missing (env : GoFetcherEnv) (st : FetchState) (path : GoStr)
    (hlook : lookupFile st.files path = none) :
    loadLibraryInfoFS env st path = .error (gs "file not found or expired") ∨
    loadLibraryInfoFS env st path = .error (gs "file not found") := by
  unfold loadLibraryInfoFS
  by_cases h : (Cache.Manager.mk env.cacheDir env.ttl).IsExpired st.now st.files path = true
  · left
    simp [h]
  · right
    rw [Bool.not_eq_true] at h
    simp [h, hlook]

/-- `FetchLibraryInfo` after a successful resolution of an empty version to
a plain (unsuffixed) version `v`. -/
theorem FetchLibraryInfo_resolved (env : GoFetcherEnv) (st : FetchState) (p v : GoStr)
    (hglv : getLatestVersion env.proxy p = .ok v) (hnc : strContains v (gs ":") = false)
    (hv : v ≠ []) :
    FetchLibraryInfo env st p [] =
      (match loadLibraryInfoFS env st
          (env.cacheDir ++ gs "/go/libraries/"
            ++ (replaceSlashUnderscore p ++ gs "_" ++ v) ++ gs ".md") with
       | .ok li => (.ok li, st, 0)
       | .error _ =>
         match env.retrieve p v with
         | none => (.error (gs "failed to fetch library info"), st, 1)
         | some ex =>
           (.ok (⟨p, v, ex.synopsis, ex.description, ex.repository, ex.license⟩ : LibraryInfo),
            ⟨updateFile st.files
              (env.cacheDir ++ gs "/go/libraries/"
                ++ (replaceSlashUnderscore p ++ gs "_" ++ v) ++ gs ".md")
              (saveLibraryInfoAsMarkdown
                ⟨p, v, ex.synopsis, ex.description, ex.repository, ex.license⟩) st.now,
             st.now⟩,
            1)) := by
  simp [FetchLibraryInfo, hglv, hnc, hv]

/-- `FetchLibraryInfo` with an explicitly requested (nonempty) version:
no resolution happens. -/
theorem FetchLibraryInfo_versioned (env : GoFetcherEnv) (st : FetchState) (p ver : GoStr)
    (hver : ver ≠ []) :
    FetchLibraryInfo env st p ver =
      (match loadLibraryInfoFS env st
          (env.cacheDir ++ gs "/go/libraries/"
            ++ (replaceSlashUnderscore p ++ gs "_" ++ ver) ++ gs ".md") with
       | .ok li => (.ok li, st, 0)
       | .error _ =>
         match env.retrieve p ver with
         | none => (.error (gs "failed to fetch library info"), st, 1)
         | some ex =>
           (.ok (⟨p, ver, ex.synopsis, ex.description, ex.repository, ex.license⟩ : LibraryInfo),
            ⟨updateFile st.files
              (env.cacheDir ++ gs "/go/libraries/"
                ++ (replaceSlashUnderscore p ++ gs "_" ++ ver) ++ gs ".md")
              (saveLibraryInfoAsMarkdown
                ⟨p, ver, ex.synopsis, ex.description, ex.repository, ex.license⟩) st.now,
             st.now⟩,
            1)) := by
  simp [FetchLibraryInfo, hver]

/-! # Claim C4 — corrupt cache recovery -/

/-- **C4.** A persisted file containing the delimiter only once is a format
error for the deserializer ("invalid markdown format: missing
frontmatter"); `FetchLibraryInfo` treats it exactly like a cache miss: it
falls through to a fresh fetch, overwrites the file with the newly encoded
record, and returns that record to the caller with no error; the
overwritten file deserializes back to the returned record. -/
theorem c4_corrupt_cache_recovery (env : GoFetcherEnv) (p ver : GoStr) (ex : Extracted)
    (t n : Nat)
    (hver : ver ≠ [])
    (hfresh : env.ttl = 0 ∨ n - t ≤ env.ttl)
    (hret : env.retrieve p ver = some ex)
    (hip : plainValue p) (hvp : plainValue ver) (hsynf : synValue ex.synopsis)
    (hrepf : plainValue ex.repository) (hlicf : plainValue ex.license)
    (htrim : trimSpace ex.description = ex.description) :
    loadLibraryInfoFromMarkdown (gs "---")
      = .error (gs "invalid markdown format: missing frontmatter") ∧
    FetchLibraryInfo env
        ⟨[(env.cacheDir ++ gs "/go/libraries/"
            ++ (replaceSlashUnderscore p ++ gs "_" ++ ver) ++ gs ".md", gs "---", t)], n⟩
        p ver
      = (.ok (⟨p, ver, ex.synopsis, ex.description, ex.repository, ex.license⟩ : LibraryInfo),
         ⟨[(env.cacheDir ++ gs "/go/libraries/"
             ++ (replaceSlashUnderscore p ++ gs "_" ++ ver) ++ gs ".md",
            saveLibraryInfoAsMarkdown
              ⟨p, ver, ex.synopsis, ex.description, ex.repository, ex.license⟩, n)], n⟩,
         1) ∧
    loadLibraryInfoFromMarkdown (saveLibraryInfoAsMarkdown
        (⟨p, ver, ex.synopsis, ex.description, ex.repository, ex.license⟩ : LibraryInfo))
      = .ok ⟨p, ver, ex.synopsis, ex.description, ex.repository, ex.license⟩ := by
  refine ⟨by decide, ?_, decode_encode _ hip hvp hsynf hrepf hlicf htrim⟩
  rw [FetchLibraryInfo_versioned env _ p ver hver]
  have hload := loadLibraryInfoFS_found env
    ⟨[(env.cacheDir ++ gs "/go/libraries/"
        ++ (replaceSlashUnderscore p ++ gs "_" ++ ver) ++ gs ".md", gs "---", t)], n⟩
    (env.cacheDir ++ gs "/go/libraries/"
      ++ (replaceSlashUnderscore p ++ gs "_" ++ ver) ++ gs ".md")
    (gs "---") t (by simp [lookupFile]) hfresh
  rw [hload] at *
  simp only [hload]
  rw [show loadLibraryInfoFromMarkdown (gs "---")
      = .error (gs "invalid markdown format: missing frontmatter") from by decide]
  simp only [hret, updateFile]
  simp

/-- Witness for C4 at a concrete environment: the oracle returns a fixed
record, the corrupt file holds a single delimiter, and the fetch overwrites
it and succeeds. -/
theorem c4_witness :
    loadLibraryInfoFromMarkdown (gs "---")
      = .error (gs "invalid markdown format: missing frontmatter") ∧
    FetchLibraryInfo
        ⟨gs "c", 0, fun _ => none, fun _ _ => some ⟨gs "syn", gs "desc", gs "repo", gs "MIT"⟩⟩
        ⟨[(gs "c" ++ gs "/go/libraries/"
            ++ (replaceSlashUnderscore (gs "fmt") ++ gs "_" ++ gs "v1.0.0") ++ gs ".md",
           gs "---", 3)], 9⟩
        (gs "fmt") (gs "v1.0.0")
      = (.ok ⟨gs "fmt", gs "v1.0.0", gs "syn", gs "desc", gs "repo", gs "MIT"⟩,
         ⟨[(gs "c" ++ gs "/go/libraries/"
             ++ (replaceSlashUnderscore (gs "fmt") ++ gs "_" ++ gs "v1.0.0") ++ gs ".md",
            saveLibraryInfoAsMarkdown
              ⟨gs "fmt", gs "v1.0.0", gs "syn", gs "desc", gs "repo", gs "MIT"⟩, 9)], 9⟩,
         1) ∧
    loadLibraryInfoFromMarkdown (saveLibraryInfoAsMarkdown
        ⟨gs "fmt", gs "v1.0.0", gs "syn", gs "desc", gs "repo", gs "MIT"⟩)
      = .ok ⟨gs "fmt", gs "v1.0.0", gs "syn", gs "desc", gs "repo", gs "MIT"⟩ :=
  c4_corrupt_cache_recovery
    ⟨gs "c", 0, fun _ => none, fun _ _ => some ⟨gs "syn", gs "desc", gs "repo", gs "MIT"⟩⟩
    (gs "fmt") (gs "v1.0.0") ⟨gs "syn", gs "desc", gs "repo", gs "MIT"⟩ 3 9
    (by decide) (Or.inl rfl) rfl
    (by decide) (by decide) (by decide) (by decide) (by decide) (by decide)

/-! # Claim C9 — cold fetch then warm fetch -/

/-- **C9.** With an empty cache, a request for `(importPath, version="")`
resolves the version, misses the cache, invokes the retrieval adapter once
and persists the encoded record; an identical second request within the TTL
window resolves to the same key, hits the cache, returns the same record
(the decoded persisted body), performs zero retrievals, and leaves the file
store unchanged — one retrieval across the two requests. -/
theorem c9_cold_then_warm (env : GoFetcherEnv) (p v : GoStr) (ex : Extracted)
    (n1 n2 : Nat)
    (hres : env.proxy p = some v) (hv : v ≠ []) (hvc : ':' ∉ v)
    (hsuf : ∀ m, 2 ≤ m → m ≤ 10 → env.proxy (p ++ gs "/v" ++ natStr m) = none)
    (hret : env.retrieve p v = some ex)
    (hip : plainValue p) (hvp : plainValue v) (hsynf : synValue ex.synopsis)
    (hrepf : plainValue ex.repository) (hlicf : plainValue ex.license)
    (htrim : trimSpace ex.description = ex.description)
    (hwin : env.ttl = 0 ∨ n2 - n1 ≤ env.ttl) :
    FetchLibraryInfo env ⟨[], n1⟩ p []
      = (.ok (⟨p, v, ex.synopsis, ex.description, ex.repository, ex.license⟩ : LibraryInfo),
         ⟨[(env.cacheDir ++ gs "/go/libraries/"
             ++ (replaceSlashUnderscore p ++ gs "_" ++ v) ++ gs ".md",
            saveLibraryInfoAsMarkdown
              ⟨p, v, ex.synopsis, ex.description, ex.repository, ex.license⟩, n1)], n1⟩,
         1) ∧
    FetchLibraryInfo env
        ⟨[(env.cacheDir ++ gs "/go/libraries/"
            ++ (replaceSlashUnderscore p ++ gs "_" ++ v) ++ gs ".md",
           saveLibraryInfoAsMarkdown
             ⟨p, v, ex.synopsis, ex.description, ex.repository, ex.license⟩, n1)], n2⟩
        p []
      = (.ok (⟨p, v, ex.synopsis, ex.description, ex.repository, ex.license⟩ : LibraryInfo),
         ⟨[(env.cacheDir ++ gs "/go/libraries/"
             ++ (replaceSlashUnderscore p ++ gs "_" ++ v) ++ gs ".md",
            saveLibraryInfoAsMarkdown
              ⟨p, v, ex.synopsis, ex.description, ex.repository, ex.license⟩, n1)], n2⟩,
         0) := by
  have hglv : getLatestVersion env.proxy p = .ok v := getLatestVersion_base env.proxy p v hres hv hsuf
  have hnc : strContains v (gs ":") = false := by
    rw [show gs ":" = [':'] from rfl]
    by_contra h
    rw [Bool.not_eq_false, strContains_single] at h
    exact hvc h
  constructor
  · rw [FetchLibraryInfo_resolved env _ p v hglv hnc hv]
    rcases loadLibraryInfoFS_missing env ⟨[], n1⟩
        (env.cacheDir ++ gs "/go/libraries/"
          ++ (replaceSlashUnderscore p ++ gs "_" ++ v) ++ gs ".md") rfl with hm | hm <;>
      simp only [hm, hret, updateFile]
  · rw [FetchLibraryInfo_resolved env _ p v hglv hnc hv]
    have hfound := loadLibraryInfoFS_found env
      ⟨[(env.cacheDir ++ gs "/go/libraries/"
          ++ (replaceSlashUnderscore p ++ gs "_" ++ v) ++ gs ".md",
         saveLibraryInfoAsMarkdown
           ⟨p, v, ex.synopsis, ex.description, ex.repository, ex.license⟩, n1)], n2⟩
      (env.cacheDir ++ gs "/go/libraries/"
        ++ (replaceSlashUnderscore p ++ gs "_" ++ v) ++ gs ".md")
      (saveLibraryInfoAsMarkdown
        ⟨p, v, ex.synopsis, ex.description, ex.repository, ex.license⟩) n1
      (by simp [lookupFile]) hwin
    simp only [hfound,
      decode_encode ⟨p, v, ex.synopsis, ex.description, ex.repository, ex.license⟩
        hip hvp hsynf hrepf hlicf htrim]

/-- Witness for C9 at a concrete environment with a call-counting view:
the first request performs the single retrieval and persists, the second
returns the identical record with zero retrievals and an unchanged store. -/
theorem c9_witness :
    FetchLibraryInfo
        ⟨gs "c", 5, (fun q => if q = gs "fmt" then some (gs "v1.0.0") else none),
         fun _ _ => some ⟨gs "syn", gs "desc", gs "repo", gs "MIT"⟩⟩
        ⟨[], 0⟩ (gs "fmt") []
      = (.ok ⟨gs "fmt", gs "v1.0.0", gs "syn", gs "desc", gs "repo", gs "MIT"⟩,
         ⟨[(gs "c" ++ gs "/go/libraries/"
             ++ (replaceSlashUnderscore (gs "fmt") ++ gs "_" ++ gs "v1.0.0") ++ gs ".md",
            saveLibraryInfoAsMarkdown
              ⟨gs "fmt", gs "v1.0.0", gs "syn", gs "desc", gs "repo", gs "MIT"⟩, 0)], 0⟩,
         1) ∧
    FetchLibraryInfo
        ⟨gs "c", 5, (fun q => if q = gs "fmt" then some (gs "v1.0.0") else none),
         fun _ _ => some ⟨gs "syn", gs "desc", gs "repo", gs "MIT"⟩⟩
        ⟨[(gs "c" ++ gs "/go/libraries/"
            ++ (replaceSlashUnderscore (gs "fmt") ++ gs "_" ++ gs "v1.0.0") ++ gs ".md",
           saveLibraryInfoAsMarkdown
             ⟨gs "fmt", gs "v1.0.0", gs "syn", gs "desc", gs "repo", gs "MIT"⟩, 0)], 3⟩
        (gs "fmt") []
      = (.ok ⟨gs "fmt", gs "v1.0.0", gs "syn", gs "desc", gs "repo", gs "MIT"⟩,
         ⟨[(gs "c" ++ gs "/go/libraries/"
             ++ (replaceSlashUnderscore (gs "fmt") ++ gs "_" ++ gs "v1.0.0") ++ gs ".md",
            saveLibraryInfoAsMarkdown
              ⟨gs "fmt", gs "v1.0.0", gs "syn", gs "desc", gs "repo", gs "MIT"⟩, 0)], 3⟩,
         0) :=
  c9_cold_then_warm
    ⟨gs "c", 5, (fun q => if q = gs "fmt" then some (gs "v1.0.0") else none),
     fun _ _ => some ⟨gs "syn", gs "desc", gs "repo", gs "MIT"⟩⟩
    (gs "fmt") (gs "v1.0.0") ⟨gs "syn", gs "desc", gs "repo", gs "MIT"⟩ 0 3
    (by decide) (by decide) (by decide)
    (by intro m h1 h2; interval_cases m <;> decide)
    rfl (by decide) (by decide) (by decide) (by decide) (by decide) (by decide)
    (Or.inr (by decide))
